import Mathlib

/-!
Verification of the Geometry2D analysis pipeline of the ai-vault-dashboard
backend: ROI coordinate model (`roi_math.py`), template keypoint generation
(`template_keypoints.py`), ratio scoring (`template_scoring.py`), ROI
auto-correction (`roi_correction.py`), constraint selection and pruning
(`reconstruction_rib_guidance.py`), graph construction
(`reconstruction_graph.py`) and the bay-plan reconstruction orchestrator
(`bay_plan_reconstruction_service.py`).

Conventions of the embedding:
* Python floats are modelled as exact values (`ℚ` where the source arithmetic
  is rational, `ℝ` where it involves trigonometry or square roots).
* A Python `raise` is modelled as `Except.error`; a function that cannot raise
  is total.
* `math.hypot(dx, dy) <= tol` comparisons are modelled over `ℚ` as
  `dx^2 + dy^2 <= tol^2`, which is equivalent for `tol ≥ 0` since both sides
  are non-negative; over `ℝ` the square root is kept literally.
-/

set_option maxRecDepth 10000
set_option maxHeartbeats 1000000

deriving instance DecidableEq for Except

-- ### Python numeric primitives -------------------------------------------

/-- Python `round` to an integer: banker's rounding (ties go to the even
neighbour), exact elsewhere. -/
def pyRound {α : Type} [LinearOrderedField α] [FloorRing α] [DecidableEq α]
    (x : α) : ℤ :=
  if x - (⌊x⌋ : α) = 1 / 2 then (if Even ⌊x⌋ then ⌊x⌋ else ⌊x⌋ + 1)
  else round x

/-- Python `round(x, d)`: round to `d` decimal digits. -/
def roundTo {α : Type} [LinearOrderedField α] [FloorRing α] [DecidableEq α]
    (d : ℕ) (x : α) : α :=
  ((pyRound (x * 10 ^ d) : ℤ) : α) / 10 ^ d

/-- Python `range(a, b)` over integers. -/
def pyRange (a b : ℤ) : List ℤ :=
  (List.range (b - a).toNat).map (fun i => a + (Nat.cast i : ℤ))

theorem pyRound_sub_le {α : Type} [LinearOrderedField α] [FloorRing α]
    [DecidableEq α] (x : α) : |(pyRound x : α) - x| ≤ 1 / 2 := by
  unfold pyRound
  split
  · rename_i h
    split
    · rw [abs_sub_comm, abs_sub_le_iff]
      constructor <;> nlinarith [Int.floor_le x]
    · push_cast
      rw [abs_sub_le_iff]
      constructor <;> nlinarith [Int.floor_le x]
  · rw [abs_sub_comm]
    exact abs_sub_round x

theorem pyRound_intCast {α : Type} [LinearOrderedField α] [FloorRing α]
    [DecidableEq α] (k : ℤ) : pyRound ((k : α)) = k := by
  unfold pyRound
  rw [Int.floor_intCast]
  split
  · rename_i h
    norm_num at h
  · exact round_intCast k

theorem roundTo_sub_le {α : Type} [LinearOrderedField α] [FloorRing α]
    [DecidableEq α] (d : ℕ) (x : α) : |roundTo d x - x| ≤ 1 / (2 * 10 ^ d) := by
  unfold roundTo
  have h10 : (0 : α) < 10 ^ d := by positivity
  have h := pyRound_sub_le (x * 10 ^ d)
  have hrw : ((pyRound (x * 10 ^ d) : ℤ) : α) / 10 ^ d - x =
      (((pyRound (x * 10 ^ d) : ℤ) : α) - x * 10 ^ d) / 10 ^ d := by
    field_simp
    ring
  rw [hrw, abs_div, abs_of_pos h10, div_le_div_iff h10 (by positivity)]
  calc |((pyRound (x * 10 ^ d) : ℤ) : α) - x * 10 ^ d| * (2 * 10 ^ d)
      ≤ (1 / 2) * (2 * 10 ^ d) := by
        apply mul_le_mul_of_nonneg_right h (by positivity)
    _ = 1 * 10 ^ d := by ring

/-- Rounding to `d` digits fixes any value that is already an exact multiple
of `10⁻ᵈ`. -/
theorem roundTo_exact {α : Type} [LinearOrderedField α] [FloorRing α]
    [DecidableEq α] (d : ℕ) (k : ℤ) :
    roundTo d ((k : α) / 10 ^ d) = (k : α) / 10 ^ d := by
  unfold roundTo
  have h10 : (10 : α) ^ d ≠ 0 := by positivity
  rw [div_mul_cancel₀ _ h10, pyRound_intCast]

-- ### `template_keypoints.py`: rational core ------------------------------

/-- A 2D point in ROI unit space (exact rational model). -/
abbrev QPoint : Type := ℚ × ℚ

/-- Source `_clip_unit`: clamp a coordinate into `[0, 1]`. -/
def clip_unit {α : Type} [LinearOrder α] [One α] [Zero α] (value : α) : α :=
  min 1 (max 0 value)

/-- Worker loop of `_dedupe_points` (rational case): points are rounded to six
decimals and kept only when no already-kept point lies within `tol`
(Euclidean distance, compared here in squared form). -/
def dedupe_points_go (tol : ℚ) (out : List QPoint) : List QPoint → List QPoint
  | [] => out
  | p :: rest =>
    let p6 : QPoint := (roundTo 6 p.1, roundTo 6 p.2)
    if out.any (fun q => (p6.1 - q.1) ^ 2 + (p6.2 - q.2) ^ 2 ≤ tol ^ 2) then
      dedupe_points_go tol out rest
    else
      dedupe_points_go tol (out ++ [p6]) rest

/-- Source `_dedupe_points` over exact rationals. -/
def dedupe_points (pts : List QPoint) (tol : ℚ) : List QPoint :=
  dedupe_points_go tol [] pts

/-- Raw point list built by the nested loops of `_grid_intersections` before
deduplication (the source inlines this list). -/
def grid_raw_points (m : ℤ) : List QPoint :=
  (pyRange 0 (m + 1)).flatMap fun i =>
    (pyRange 0 (m + 1)).map fun j =>
      (clip_unit ((Int.cast i : ℚ) / (Int.cast m : ℚ)),
        clip_unit ((Int.cast j : ℚ) / (Int.cast m : ℚ)))

/-- Source `_grid_intersections`: the `(n+1) × (n+1)` grid of an `n`-division
of the unit square, deduplicated at tolerance `1e-6`. -/
def grid_intersections (n : ℤ) : List QPoint :=
  dedupe_points (grid_raw_points (max 1 n)) (1 / 1000000)

-- ### dedupe lemmas --------------------------------------------------------

theorem dedupe_points_go_eq_append (tol : ℚ) (out : List QPoint)
    (pts : List QPoint)
    (hout : ∀ p ∈ pts, ∀ q ∈ out,
      ¬((roundTo 6 p.1 - q.1) ^ 2 + (roundTo 6 p.2 - q.2) ^ 2 ≤ tol ^ 2))
    (hpair : (pts.map (fun p => ((roundTo 6 p.1 : ℚ), (roundTo 6 p.2 : ℚ)))).Pairwise
      (fun p q => ¬((q.1 - p.1) ^ 2 + (q.2 - p.2) ^ 2 ≤ tol ^ 2))) :
    dedupe_points_go tol out pts =
      out ++ pts.map (fun p => ((roundTo 6 p.1 : ℚ), (roundTo 6 p.2 : ℚ))) := by
  induction pts generalizing out with
  | nil => simp [dedupe_points_go]
  | cons p rest ih =>
    rw [dedupe_points_go]
    simp only [List.map_cons, List.pairwise_cons] at hpair
    have hnone : ¬ out.any
        (fun q => ((roundTo 6 p.1 : ℚ) - q.1) ^ 2 + (roundTo 6 p.2 - q.2) ^ 2 ≤ tol ^ 2) = true := by
      simp only [List.any_eq_true, decide_eq_true_eq]
      rintro ⟨q, hq, hc⟩
      exact hout p (List.mem_cons_self _ _) q hq hc
    rw [if_neg hnone]
    rw [ih (out ++ [(roundTo 6 p.1, roundTo 6 p.2)])]
    · simp
    · intro r hr q hq
      rcases List.mem_append.mp hq with hq | hq
      · exact hout r (List.mem_cons_of_mem _ hr) q hq
      · have hq' : q = (roundTo 6 p.1, roundTo 6 p.2) := by simpa using hq
        subst hq'
        have := hpair.1 (roundTo 6 r.1, roundTo 6 r.2) (by
          exact List.mem_map.mpr ⟨r, hr, rfl⟩)
        intro hc
        exact this hc
    · exact hpair.2

theorem dedupe_points_go_mem (tol : ℚ) (out : List QPoint) (pts : List QPoint)
    (x : QPoint) (hx : x ∈ dedupe_points_go tol out pts) :
    x ∈ out ∨ ∃ p ∈ pts, x = (roundTo 6 p.1, roundTo 6 p.2) := by
  induction pts generalizing out with
  | nil => simp [dedupe_points_go] at hx; exact Or.inl hx
  | cons p rest ih =>
    rw [dedupe_points_go] at hx
    split at hx
    · rcases ih out hx with h | ⟨r, hr, hxr⟩
      · exact Or.inl h
      · exact Or.inr ⟨r, List.mem_cons_of_mem _ hr, hxr⟩
    · rcases ih (out ++ [(roundTo 6 p.1, roundTo 6 p.2)]) hx with h | ⟨r, hr, hxr⟩
      · rcases List.mem_append.mp h with h | h
        · exact Or.inl h
        · exact Or.inr ⟨p, List.mem_cons_self _ _, by simpa using h⟩
      · exact Or.inr ⟨r, List.mem_cons_of_mem _ hr, hxr⟩

theorem dedupe_points_go_length_le (tol : ℚ) (out : List QPoint)
    (pts : List QPoint) :
    (dedupe_points_go tol out pts).length ≤ out.length + pts.length := by
  induction pts generalizing out with
  | nil => simp [dedupe_points_go]
  | cons p rest ih =>
    rw [dedupe_points_go]
    split
    · calc (dedupe_points_go tol out rest).length ≤ out.length + rest.length := ih out
        _ ≤ out.length + (p :: rest).length := by
          simp only [List.length_cons]
          omega
    · calc (dedupe_points_go tol (out ++ [_]) rest).length
          ≤ (out ++ [_]).length + rest.length := ih _
        _ = out.length + (p :: rest).length := by
          simp only [List.length_append, List.length_cons, List.length_nil]
          omega

-- ### grid structure lemmas ------------------------------------------------

theorem pyRange_length (a b : ℤ) : (pyRange a b).length = (b - a).toNat := by
  simp [pyRange]

theorem mem_pyRange {a b x : ℤ} : x ∈ pyRange a b ↔ a ≤ x ∧ x < b := by
  constructor
  · intro hx
    rcases List.mem_map.mp hx with ⟨i, hi, rfl⟩
    have := List.mem_range.mp hi
    omega
  · rintro ⟨h1, h2⟩
    refine List.mem_map.mpr ⟨(x - a).toNat, List.mem_range.mpr (by omega), by omega⟩

theorem grid_raw_points_length (m : ℤ) :
    (grid_raw_points m).length = (m + 1).toNat * (m + 1).toNat := by
  unfold grid_raw_points
  rw [List.length_flatMap]
  have hmap : (pyRange 0 (m + 1)).map
      (List.length ∘ fun i => (pyRange 0 (m + 1)).map fun j =>
        ((clip_unit ((Int.cast i : ℚ) / (Int.cast m : ℚ)),
          clip_unit ((Int.cast j : ℚ) / (Int.cast m : ℚ))) : QPoint))
      = (pyRange 0 (m + 1)).map fun _ => (m + 1).toNat := by
    apply List.map_congr_left
    intro i _
    simp [pyRange_length]
  rw [hmap, List.map_const', List.sum_replicate, smul_eq_mul, pyRange_length]
  congr 1 <;> omega

theorem mem_grid_raw_points {m : ℤ} {p : QPoint} :
    p ∈ grid_raw_points m ↔ ∃ i j : ℤ, 0 ≤ i ∧ i ≤ m ∧ 0 ≤ j ∧ j ≤ m ∧
      p = (clip_unit ((i : ℚ) / (m : ℚ)), clip_unit ((j : ℚ) / (m : ℚ))) := by
  unfold grid_raw_points
  rw [List.mem_flatMap]
  constructor
  · rintro ⟨i, hi, hp⟩
    rcases List.mem_map.mp hp with ⟨j, hj, rfl⟩
    rcases mem_pyRange.mp hi with ⟨hi0, hi1⟩
    rcases mem_pyRange.mp hj with ⟨hj0, hj1⟩
    exact ⟨i, j, hi0, by omega, hj0, by omega, rfl⟩
  · rintro ⟨i, j, hi0, hi1, hj0, hj1, rfl⟩
    exact ⟨i, mem_pyRange.mpr ⟨hi0, by omega⟩,
      List.mem_map.mpr ⟨j, mem_pyRange.mpr ⟨hj0, by omega⟩, rfl⟩⟩

theorem clip_unit_of_mem {x : ℚ} (h0 : 0 ≤ x) (h1 : x ≤ 1) : clip_unit x = x := by
  simp [clip_unit, max_eq_right h0, min_eq_right h1]

theorem clip_unit_ratio {i m : ℤ} (hm : 1 ≤ m) (h0 : 0 ≤ i) (h1 : i ≤ m) :
    clip_unit ((i : ℚ) / (m : ℚ)) = (i : ℚ) / (m : ℚ) := by
  have hmq : (0 : ℚ) < (m : ℚ) := by exact_mod_cast hm
  apply clip_unit_of_mem
  · positivity
  · rw [div_le_one hmq]
    exact_mod_cast h1

/-- Key separation bound: for `1 ≤ m < 500000`, two distinct grid ratios stay
strictly more than the dedup tolerance `1e-6` apart after rounding to six
decimals. -/
theorem round6_ratio_sep {m i j : ℤ} (hm : 1 ≤ m) (hmlt : m < 500000)
    (hij : i ≠ j) (hi0 : 0 ≤ i) (hi1 : i ≤ m) (hj0 : 0 ≤ j) (hj1 : j ≤ m) :
    1 / 1000000 < |roundTo 6 ((j : ℚ) / (m : ℚ)) - roundTo 6 ((i : ℚ) / (m : ℚ))| := by
  have hmq : (0 : ℚ) < (m : ℚ) := by exact_mod_cast hm
  have hgap : 1 / (m : ℚ) ≤ |(j : ℚ) / (m : ℚ) - (i : ℚ) / (m : ℚ)| := by
    rw [div_sub_div_same, abs_div, abs_of_pos hmq, div_le_div_iff_of_pos_right hmq]
    have : (1 : ℚ) ≤ |(j : ℚ) - (i : ℚ)| := by
      have : j - i ≠ 0 := by omega
      calc (1 : ℚ) ≤ |((j - i : ℤ) : ℚ)| := by
            rw [← Int.cast_abs]
            exact_mod_cast Int.one_le_abs (by omega)
        _ = |(j : ℚ) - (i : ℚ)| := by push_cast; ring_nf
    exact this
  have hstep : 1 / 500000 < 1 / (m : ℚ) := by
    apply one_div_lt_one_div_of_lt hmq
    exact_mod_cast hmlt
  have hri := roundTo_sub_le 6 ((i : ℚ) / (m : ℚ))
  have hrj := roundTo_sub_le 6 ((j : ℚ) / (m : ℚ))
  have h2 : (1 : ℚ) / (2 * 10 ^ 6) = 1 / 2000000 := by norm_num
  rw [h2] at hri hrj
  have htri : |(j : ℚ) / (m : ℚ) - (i : ℚ) / (m : ℚ)| ≤
      |roundTo 6 ((j : ℚ) / (m : ℚ)) - roundTo 6 ((i : ℚ) / (m : ℚ))| + 1 / 1000000 := by
    have := abs_sub_abs_le_abs_sub ((j : ℚ) / (m : ℚ) - (i : ℚ) / (m : ℚ))
      (roundTo 6 ((j : ℚ) / (m : ℚ)) - roundTo 6 ((i : ℚ) / (m : ℚ)))
    have habs : |((j : ℚ) / (m : ℚ) - (i : ℚ) / (m : ℚ)) -
        (roundTo 6 ((j : ℚ) / (m : ℚ)) - roundTo 6 ((i : ℚ) / (m : ℚ)))| ≤ 1 / 1000000 := by
      calc |((j : ℚ) / (m : ℚ) - (i : ℚ) / (m : ℚ)) -
          (roundTo 6 ((j : ℚ) / (m : ℚ)) - roundTo 6 ((i : ℚ) / (m : ℚ)))|
          = |(((j : ℚ) / (m : ℚ)) - roundTo 6 ((j : ℚ) / (m : ℚ)))
            + (roundTo 6 ((i : ℚ) / (m : ℚ)) - ((i : ℚ) / (m : ℚ)))| := by ring_nf
        _ ≤ |((j : ℚ) / (m : ℚ)) - roundTo 6 ((j : ℚ) / (m : ℚ))|
            + |roundTo 6 ((i : ℚ) / (m : ℚ)) - ((i : ℚ) / (m : ℚ))| := abs_add _ _
        _ ≤ 1 / 2000000 + 1 / 2000000 := by
            apply add_le_add
            · rw [abs_sub_comm]; exact hrj
            · exact hri
        _ = 1 / 1000000 := by norm_num
    linarith [abs_sub_abs_le_abs_sub ((j : ℚ) / (m : ℚ) - (i : ℚ) / (m : ℚ))
        (roundTo 6 ((j : ℚ) / (m : ℚ)) - roundTo 6 ((i : ℚ) / (m : ℚ))),
      abs_le.mp habs]
  have hfin : (1 : ℚ) / 500000 - 1 / 1000000 = 1 / 1000000 := by norm_num
  linarith

theorem pyRange_pairwise_lt (a b : ℤ) : (pyRange a b).Pairwise (· < ·) := by
  unfold pyRange
  rw [List.pairwise_map]
  exact (List.pairwise_lt_range _).imp (by omega)

theorem sq_lt_of_abs_lt {d tol : ℚ} (h : tol < |d|) (h0 : 0 ≤ tol) :
    tol ^ 2 < d ^ 2 := by
  have := mul_self_lt_mul_self h0 h
  calc tol ^ 2 = tol * tol := sq tol
    _ < |d| * |d| := this
    _ = d ^ 2 := by rw [← abs_mul, abs_mul_self, sq]

/-- Two distinct grid points of the `m`-division stay separated after rounding
(for `m < 500000`), so the `1e-6` dedup keeps them both. -/
theorem grid_round6_sep {m i1 j1 i2 j2 : ℤ} (hm : 1 ≤ m) (hmlt : m < 500000)
    (hne : i1 ≠ i2 ∨ j1 ≠ j2)
    (hi1 : 0 ≤ i1) (hi1' : i1 ≤ m) (hj1 : 0 ≤ j1) (hj1' : j1 ≤ m)
    (hi2 : 0 ≤ i2) (hi2' : i2 ≤ m) (hj2 : 0 ≤ j2) (hj2' : j2 ≤ m) :
    ¬((roundTo 6 (clip_unit ((i2 : ℚ) / (m : ℚ))) -
        roundTo 6 (clip_unit ((i1 : ℚ) / (m : ℚ)))) ^ 2 +
      (roundTo 6 (clip_unit ((j2 : ℚ) / (m : ℚ))) -
        roundTo 6 (clip_unit ((j1 : ℚ) / (m : ℚ)))) ^ 2 ≤ (1 / 1000000 : ℚ) ^ 2) := by
  rw [clip_unit_ratio hm hi1 hi1', clip_unit_ratio hm hi2 hi2',
    clip_unit_ratio hm hj1 hj1', clip_unit_ratio hm hj2 hj2']
  intro hc
  rcases hne with hne | hne
  · have hsep := round6_ratio_sep hm hmlt (Ne.symm hne) hi2 hi2' hi1 hi1'
    have hsq := sq_lt_of_abs_lt hsep (by norm_num)
    nlinarith [sq_nonneg (roundTo 6 ((j2 : ℚ) / (m : ℚ)) - roundTo 6 ((j1 : ℚ) / (m : ℚ)))]
  · have hsep := round6_ratio_sep hm hmlt (Ne.symm hne) hj2 hj2' hj1 hj1'
    have hsq := sq_lt_of_abs_lt hsep (by norm_num)
    nlinarith [sq_nonneg (roundTo 6 ((i2 : ℚ) / (m : ℚ)) - roundTo 6 ((i1 : ℚ) / (m : ℚ)))]

theorem grid_rounded_pairwise (m : ℤ) (hm : 1 ≤ m) (hmlt : m < 500000) :
    ((grid_raw_points m).map
        (fun p => ((roundTo 6 p.1 : ℚ), (roundTo 6 p.2 : ℚ)))).Pairwise
      (fun p q => ¬((q.1 - p.1) ^ 2 + (q.2 - p.2) ^ 2 ≤ (1 / 1000000 : ℚ) ^ 2)) := by
  unfold grid_raw_points
  rw [List.map_flatMap]
  rw [List.pairwise_flatMap]
  constructor
  · intro i hi
    rcases mem_pyRange.mp hi with ⟨hi0, hi1⟩
    rw [List.map_map, List.pairwise_map]
    have hpw := pyRange_pairwise_lt 0 (m + 1)
    refine hpw.imp_of_mem ?_
    intro j1 j2 hj1m hj2m hlt'
    rcases mem_pyRange.mp hj1m with ⟨hj10, hj11⟩
    rcases mem_pyRange.mp hj2m with ⟨hj20, hj21⟩
    simp only [Function.comp]
    exact grid_round6_sep hm hmlt (Or.inr (by omega)) hi0 (by omega) hj10 (by omega)
      hi0 (by omega) hj20 (by omega)
  · have hpw := pyRange_pairwise_lt 0 (m + 1)
    refine hpw.imp_of_mem ?_
    intro i1 i2 hi1m hi2m hlt'
    rcases mem_pyRange.mp hi1m with ⟨hi10, hi11⟩
    rcases mem_pyRange.mp hi2m with ⟨hi20, hi21⟩
    intro x hx y hy
    rw [List.map_map] at hx hy
    rcases List.mem_map.mp hx with ⟨j1, hj1m, rfl⟩
    rcases List.mem_map.mp hy with ⟨j2, hj2m, rfl⟩
    rcases mem_pyRange.mp hj1m with ⟨hj10, hj11⟩
    rcases mem_pyRange.mp hj2m with ⟨hj20, hj21⟩
    simp only [Function.comp]
    exact grid_round6_sep hm hmlt (Or.inl (by omega)) hi10 (by omega) hj10 (by omega)
      hi20 (by omega) hj20 (by omega)

/-- For a grid division below the dedup resolution, `_dedupe_points` drops
nothing: the output is exactly the rounded raw grid. -/
theorem grid_intersections_eq_map {n : ℤ} (h1 : 1 ≤ n) (hlt : n < 500000) :
    grid_intersections n = (grid_raw_points n).map
      (fun p => ((roundTo 6 p.1 : ℚ), (roundTo 6 p.2 : ℚ))) := by
  have hmax : max 1 n = n := max_eq_right h1
  unfold grid_intersections dedupe_points
  rw [hmax]
  rw [dedupe_points_go_eq_append (1 / 1000000) [] (grid_raw_points n)
    (by intro p _ q hq; simp at hq)
    (grid_rounded_pairwise n h1 hlt)]
  simp

theorem roundTo6_zero : roundTo 6 (0 : ℚ) = 0 := by with_unfolding_all decide

theorem roundTo6_one : roundTo 6 (1 : ℚ) = 1 := by with_unfolding_all decide

theorem roundTo6_half : roundTo 6 (1 / 2 : ℚ) = 1 / 2 := by with_unfolding_all decide

theorem mem_grid_intersections_of {n i j : ℤ} (h1 : 1 ≤ n) (hlt : n < 500000)
    (hi0 : 0 ≤ i) (hi1 : i ≤ n) (hj0 : 0 ≤ j) (hj1 : j ≤ n) :
    ((roundTo 6 ((i : ℚ) / (n : ℚ)) : ℚ), (roundTo 6 ((j : ℚ) / (n : ℚ)) : ℚ)) ∈
      grid_intersections n := by
  rw [grid_intersections_eq_map h1 hlt]
  refine List.mem_map.mpr
    ⟨(clip_unit ((i : ℚ) / (n : ℚ)), clip_unit ((j : ℚ) / (n : ℚ))),
      mem_grid_raw_points.mpr ⟨i, j, hi0, hi1, hj0, hj1, rfl⟩, ?_⟩
  rw [clip_unit_ratio h1 hi0 hi1, clip_unit_ratio h1 hj0 hj1]

theorem grid_corner_mem {n : ℤ} (h1 : 1 ≤ n) (hlt : n < 500000)
    {a b : ℤ} (ha : a = 0 ∨ a = n) (hb : b = 0 ∨ b = n) :
    ((if a = 0 then (0 : ℚ) else 1), (if b = 0 then (0 : ℚ) else 1)) ∈
      grid_intersections n := by
  have hn0 : ((n : ℚ)) ≠ 0 := by
    have : (0 : ℚ) < (n : ℚ) := by exact_mod_cast h1
    linarith
  have key : ∀ c : ℤ, c = 0 ∨ c = n →
      roundTo 6 ((c : ℚ) / (n : ℚ)) = (if c = 0 then (0 : ℚ) else 1) := by
    intro c hc
    rcases hc with rfl | rfl
    · simp [roundTo6_zero]
    · rw [if_neg (by omega), div_self hn0, roundTo6_one]
  have := mem_grid_intersections_of h1 hlt
    (i := a) (j := b) (by omega) (by omega) (by omega) (by omega)
  rwa [key a ha, key b hb] at this

theorem grid_centre_mem_iff {n : ℤ} (h1 : 1 ≤ n) (hlt : n < 500000) :
    ((1 / 2 : ℚ), (1 / 2 : ℚ)) ∈ grid_intersections n ↔ Even n := by
  constructor
  · intro hmem
    rw [grid_intersections_eq_map h1 hlt] at hmem
    rcases List.mem_map.mp hmem with ⟨p, hp, hpe⟩
    rcases mem_grid_raw_points.mp hp with ⟨i, j, hi0, hi1, hj0, hj1, rfl⟩
    have hfst : roundTo 6 (clip_unit ((i : ℚ) / (n : ℚ))) = 1 / 2 := by
      have := congrArg Prod.fst hpe
      simpa using this
    rw [clip_unit_ratio h1 hi0 hi1] at hfst
    have hb := roundTo_sub_le 6 ((i : ℚ) / (n : ℚ))
    rw [hfst] at hb
    have hnq : (0 : ℚ) < (n : ℚ) := by exact_mod_cast h1
    have h2n : (0 : ℚ) < 2 * (n : ℚ) := by linarith
    have habs : |(n : ℚ) - 2 * i| ≤ (n : ℚ) / 1000000 := by
      have hmul : |(n : ℚ) - 2 * i| = |1 / 2 - (i : ℚ) / (n : ℚ)| * (2 * (n : ℚ)) := by
        rw [← abs_of_pos h2n, ← abs_mul]
        congr 1
        field_simp
      rw [hmul]
      calc |1 / 2 - (i : ℚ) / (n : ℚ)| * (2 * (n : ℚ))
          ≤ (1 / (2 * 10 ^ 6)) * (2 * (n : ℚ)) := by
            exact mul_le_mul_of_nonneg_right hb (le_of_lt h2n)
        _ = (n : ℚ) / 1000000 := by ring
    have hsmall : (n : ℚ) / 1000000 < 1 := by
      rw [div_lt_one (by norm_num)]
      exact_mod_cast lt_trans hlt (by norm_num)
    have hlt1 : |(n : ℚ) - 2 * i| < 1 := lt_of_le_of_lt habs hsmall
    have hz : n - 2 * i = 0 := by
      have h1' : |((n - 2 * i : ℤ) : ℚ)| < 1 := by
        push_cast
        convert hlt1 using 2
      by_contra hne
      have : (1 : ℚ) ≤ |((n - 2 * i : ℤ) : ℚ)| := by
        rw [← Int.cast_abs]
        exact_mod_cast Int.one_le_abs hne
      linarith
    exact ⟨i, by omega⟩
  · rintro ⟨t, rfl⟩
    have ht1 : 1 ≤ t := by omega
    have hhalf : ((t : ℚ)) / ((t + t : ℤ) : ℚ) = 1 / 2 := by
      have : ((t + t : ℤ) : ℚ) = 2 * (t : ℚ) := by push_cast; ring
      rw [this]
      rw [div_eq_iff (by
        have : (0 : ℚ) < (t : ℚ) := by exact_mod_cast ht1
        linarith)]
      ring
    have := mem_grid_intersections_of (n := t + t) (i := t) (j := t) h1 hlt
      (by omega) (by omega) (by omega) (by omega)
    rwa [hhalf, roundTo6_half] at this

theorem clip_unit_zero : clip_unit (0 : ℚ) = 0 := by norm_num [clip_unit]

theorem pyRange_zero_cons (b : ℤ) (hb : 2 ≤ b) :
    ∃ s, pyRange 0 b = 0 :: 1 :: s := by
  obtain ⟨k, hk⟩ : ∃ k, (b - 0).toNat = 2 + k := ⟨(b - 2).toNat, by omega⟩
  unfold pyRange
  rw [hk, List.range_add]
  refine ⟨(List.range k).map (fun x => 2 + (Nat.cast x : ℤ)), ?_⟩
  have h2 : List.range 2 = [0, 1] := by decide
  rw [h2]
  simp [List.map_map, Function.comp]

theorem grid_raw_points_head (m : ℤ) (hm : 2 ≤ m) :
    ∃ t, grid_raw_points m = ((0 : ℚ), (0 : ℚ)) :: ((0 : ℚ), 1 / (m : ℚ)) :: t := by
  obtain ⟨s, hs⟩ := pyRange_zero_cons (m + 1) (by omega)
  have hclip0 : clip_unit ((Int.cast (0 : ℤ) : ℚ) / (Int.cast m : ℚ)) = 0 := by
    norm_num [clip_unit_zero]
  have hclip1 : clip_unit ((Int.cast (1 : ℤ) : ℚ) / (Int.cast m : ℚ)) = 1 / (m : ℚ) := by
    have := clip_unit_ratio (i := 1) (m := m) (by omega) (by omega) (by omega)
    simpa using this
  unfold grid_raw_points
  rw [hs, List.flatMap_cons, List.map_cons, List.map_cons, hclip0, hclip1,
    List.cons_append, List.cons_append]
  exact ⟨_, rfl⟩

theorem roundTo6_inv_two_million : roundTo 6 (1 / 2000000 : ℚ) = 0 := by
  with_unfolding_all decide

/-- Single step of the dedupe loop when the incoming point is merged into an
already-kept point. -/
theorem dedupe_points_go_cons_skip (tol : ℚ) (out : List QPoint) (p : QPoint)
    (rest : List QPoint)
    (h : out.any (fun q => ((roundTo 6 p.1 : ℚ) - q.1) ^ 2 +
      (roundTo 6 p.2 - q.2) ^ 2 ≤ tol ^ 2) = true) :
    dedupe_points_go tol out (p :: rest) = dedupe_points_go tol out rest := by
  rw [dedupe_points_go]
  simp only [h, if_true]

/-- Single step of the dedupe loop when the incoming point is kept. -/
theorem dedupe_points_go_cons_keep (tol : ℚ) (out : List QPoint) (p : QPoint)
    (rest : List QPoint)
    (h : ¬ out.any (fun q => ((roundTo 6 p.1 : ℚ) - q.1) ^ 2 +
      (roundTo 6 p.2 - q.2) ^ 2 ≤ tol ^ 2) = true) :
    dedupe_points_go tol out (p :: rest) =
      dedupe_points_go tol (out ++ [((roundTo 6 p.1 : ℚ), (roundTo 6 p.2 : ℚ))]) rest := by
  rw [dedupe_points_go]
  rw [if_neg h]

/-- C10 counterexample: at `n = 2000000` the `1e-6` dedup merges the first two
grid points (their rounded coordinates coincide), so `standard(2000000)` has
strictly fewer than `(n+1)^2` points, refuting the unrestricted count claim. -/
theorem c10_grid_template_count_counterexample :
    (grid_intersections 2000000).length ≠ 2000001 ^ 2 := by
  obtain ⟨t, ht⟩ := grid_raw_points_head 2000000 (by norm_num)
  have hmax : max (1 : ℤ) 2000000 = 2000000 := by norm_num
  have h21 : ((2000000 : ℤ) + 1).toNat = 2000001 := by decide
  have hlen : (grid_raw_points 2000000).length = 2000001 * 2000001 := by
    rw [grid_raw_points_length, h21]
  have htlen : t.length + 2 = 2000001 * 2000001 := by
    rw [← hlen, ht]
    simp
  have hrun : grid_intersections 2000000 =
      dedupe_points_go (1 / 1000000) [((0 : ℚ), (0 : ℚ))] t := by
    unfold grid_intersections dedupe_points
    rw [hmax, ht]
    rw [dedupe_points_go_cons_keep _ _ _ _ (by simp)]
    rw [dedupe_points_go_cons_skip _ _ _ _
      (by norm_num [roundTo6_zero, roundTo6_inv_two_million])]
    norm_num [roundTo6_zero]
  intro hcontra
  have hle := dedupe_points_go_length_le (1 / 1000000) [((0 : ℚ), (0 : ℚ))] t
  rw [← hrun] at hle
  simp only [List.length_singleton] at hle
  have h2 : (2000001 : ℕ) ^ 2 = 2000001 * 2000001 := sq 2000001
  omega

/-- C10 (amended): for every integer `2 ≤ n` below the dedup resolution
(`n < 500000`), `standard(n)` contains the four corners `(0,0)`, `(1,0)`,
`(0,1)`, `(1,1)`, contains the centre `(1/2, 1/2)` iff `n` is even, and
consists of exactly `(n+1)^2` points; and `standard(2)` is exactly the nine
points of the half-integer grid. For larger `n` the `1e-6` dedup can merge
grid points (see the counterexample), which is what the restriction reflects. -/
theorem c10_grid_template_symmetry (n : ℤ) (h2 : 2 ≤ n) (hlt : n < 500000) :
    (((0 : ℚ), (0 : ℚ)) ∈ grid_intersections n ∧
      ((1 : ℚ), (0 : ℚ)) ∈ grid_intersections n ∧
      ((0 : ℚ), (1 : ℚ)) ∈ grid_intersections n ∧
      ((1 : ℚ), (1 : ℚ)) ∈ grid_intersections n) ∧
    (((1 / 2 : ℚ), (1 / 2 : ℚ)) ∈ grid_intersections n ↔ Even n) ∧
    (grid_intersections n).length = (n + 1).toNat ^ 2 ∧
    grid_intersections 2 = [(0, 0), (0, 1 / 2), (0, 1), (1 / 2, 0), (1 / 2, 1 / 2),
      (1 / 2, 1), (1, 0), (1, 1 / 2), (1, 1)] := by
  have h1 : (1 : ℤ) ≤ n := by omega
  refine ⟨⟨?_, ?_, ?_, ?_⟩, grid_centre_mem_iff h1 hlt, ?_, ?_⟩
  · have := grid_corner_mem h1 hlt (a := 0) (b := 0) (Or.inl rfl) (Or.inl rfl)
    simpa using this
  · have := grid_corner_mem h1 hlt (a := n) (b := 0) (Or.inr rfl) (Or.inl rfl)
    rw [if_neg (by omega), if_pos rfl] at this
    exact this
  · have := grid_corner_mem h1 hlt (a := 0) (b := n) (Or.inl rfl) (Or.inr rfl)
    rw [if_pos rfl, if_neg (by omega)] at this
    exact this
  · have := grid_corner_mem h1 hlt (a := n) (b := n) (Or.inr rfl) (Or.inr rfl)
    rw [if_neg (by omega : ¬ n = 0)] at this
    exact this
  · rw [grid_intersections_eq_map h1 hlt, List.length_map, grid_raw_points_length, sq]
  · with_unfolding_all decide

/-- Witness for C10 at the concrete division `n = 4`. -/
theorem c10_grid_template_symmetry_witness :
    ((2 : ℤ) ≤ 4 ∧ (4 : ℤ) < 500000) ∧
    ((((0 : ℚ), (0 : ℚ)) ∈ grid_intersections 4 ∧
      ((1 : ℚ), (0 : ℚ)) ∈ grid_intersections 4 ∧
      ((0 : ℚ), (1 : ℚ)) ∈ grid_intersections 4 ∧
      ((1 : ℚ), (1 : ℚ)) ∈ grid_intersections 4) ∧
    (((1 / 2 : ℚ), (1 / 2 : ℚ)) ∈ grid_intersections 4 ↔ Even (4 : ℤ)) ∧
    (grid_intersections 4).length = ((4 : ℤ) + 1).toNat ^ 2 ∧
    grid_intersections 2 = [(0, 0), (0, 1 / 2), (0, 1), (1 / 2, 0), (1 / 2, 1 / 2),
      (1 / 2, 1), (1, 0), (1, 1 / 2), (1, 1)]) :=
  ⟨by norm_num, c10_grid_template_symmetry 4 (by norm_num) (by norm_num)⟩

-- ### `template_scoring.py` ------------------------------------------------

/-- Model of `np.unique`: the distinct values in ascending order (the source
additionally re-sorts with `np.sort`, which is a no-op on this output).
Python/numpy sorts are stable; insertion sort is the stable sort used
throughout this embedding. -/
def np_unique (l : List ℚ) : List ℚ :=
  (l.dedup).insertionSort (· ≤ ·)

/-- Source `extract_template_ratios`. -/
def extract_template_ratios (template_uv : List QPoint) : List ℚ × List ℚ :=
  (np_unique (template_uv.map Prod.fst), np_unique (template_uv.map Prod.snd))

/-- Worker for `np.argmin`: carries the index and value of the first minimum
seen so far. -/
def np_argmin_go (best : ℕ × ℚ) (i : ℕ) : List ℚ → ℕ × ℚ
  | [] => best
  | x :: xs =>
    if x < best.2 then np_argmin_go (i, x) (i + 1) xs
    else np_argmin_go best (i + 1) xs

/-- Model of `np.argmin` paired with the minimising value (`dists[argmin]`);
`np.argmin` raises on an empty array. -/
def np_argmin_pair : List ℚ → Except String (ℕ × ℚ)
  | [] => .error ("attempt to get argmin of an empty sequence")
  | x :: xs => .ok (np_argmin_go (0, x) 1 xs)

/-- Source `match_boss_to_ratios`: nearest ratio per axis, with the index kept
only when the distance is within tolerance. -/
def match_boss_to_ratios (boss_uv : QPoint) (x_ratios y_ratios : List ℚ)
    (tolerance : ℚ) : Except String (Option ℕ × Option ℕ × ℚ × ℚ) := do
  let xp ← np_argmin_pair (x_ratios.map (fun r => |r - boss_uv.1|))
  let yp ← np_argmin_pair (y_ratios.map (fun r => |r - boss_uv.2|))
  let x_match_idx := if xp.2 ≤ tolerance then some xp.1 else none
  let y_match_idx := if yp.2 ≤ tolerance then some yp.1 else none
  pure (x_match_idx, y_match_idx, xp.2, yp.2)

/-- Result record of `score_template_ratios`. The source stores
`float("inf")` in `avg_error` and `error_norm` when no boss matched; the
infinity is modelled as `none`. -/
structure ScoreResult where
  score : ℚ
  boss_coverage : ℚ
  avg_error : Option ℚ
  error_norm : Option ℚ
  matched_bosses : ℕ
  n_bosses : ℕ
  deriving DecidableEq, Repr

/-- One iteration of the boss loop in `score_template_ratios`: count a boss
and accumulate its axis errors when both axes matched. -/
def score_boss_step (x_ratios y_ratios : List ℚ) (tolerance : ℚ)
    (acc : ℕ × ℚ × ℚ) (b : QPoint) : Except String (ℕ × ℚ × ℚ) := do
  let (x_idx, y_idx, x_dist, y_dist) ←
    match_boss_to_ratios b x_ratios y_ratios tolerance
  if x_idx.isSome ∧ y_idx.isSome then
    pure (acc.1 + 1, acc.2.1 + x_dist, acc.2.2 + y_dist)
  else
    pure acc

/-- Source `score_template_ratios`. When no boss matches, the source computes
`score = coverage - 0.25 * inf - 0.05 * (1 - coverage) = -inf` and the clamp
`max(-1, min(1, -inf))` floors it to `-1`; the model takes that branch
directly. -/
def score_template_ratios (template_uv : List QPoint) (bosses_uv : List QPoint)
    (tolerance : ℚ) : Except String ScoreResult := do
  let (x_ratios, y_ratios) := extract_template_ratios template_uv
  let acc ← bosses_uv.foldlM (score_boss_step x_ratios y_ratios tolerance)
    ((0 : ℕ), (0 : ℚ), (0 : ℚ))
  let matched_bosses := acc.1
  let n_bosses := bosses_uv.length
  let boss_coverage : ℚ :=
    if 0 < n_bosses then (matched_bosses : ℚ) / (n_bosses : ℚ) else 0
  if h : 0 < matched_bosses then
    let avg_error := (acc.2.1 + acc.2.2) / (2 * (matched_bosses : ℚ))
    let error_norm := avg_error / max tolerance (1 / 1000000)
    let score := boss_coverage - (1 / 4) * error_norm -
      (1 / 20) * (1 - boss_coverage)
    pure ⟨max (-1) (min 1 score), boss_coverage, some avg_error,
      some error_norm, matched_bosses, n_bosses⟩
  else
    pure ⟨-1, boss_coverage, none, none, matched_bosses, n_bosses⟩

-- ### C9 specification-side definitions ------------------------------------

/-- Nearest-ratio distance used by the specification's wording of the score
formula (`0` as the junk value for an empty ratio list, which cannot occur for
a nonempty template). -/
def nearest_dist (l : List ℚ) (x : ℚ) : ℚ :=
  ((l.map (fun r => |r - x|)).min?).getD 0

/-- The specification's matching predicate: a boss matches iff both of its
per-axis nearest-ratio distances are within tolerance. -/
def spec_matched (xr yr : List ℚ) (tol : ℚ) (b : QPoint) : Prop :=
  nearest_dist xr b.1 ≤ tol ∧ nearest_dist yr b.2 ≤ tol

instance (xr yr : List ℚ) (tol : ℚ) (b : QPoint) :
    Decidable (spec_matched xr yr tol b) := by
  unfold spec_matched
  infer_instance

/-- The score exactly as the specification words it: coverage, average
matched error, normalised error, and the clamped linear combination, with
score `-1` when no boss matches (infinite error norm). -/
def score_spec (template_uv bosses_uv : List QPoint) (tol : ℚ) : ℚ :=
  let xr := np_unique (template_uv.map Prod.fst)
  let yr := np_unique (template_uv.map Prod.snd)
  let matchedList := bosses_uv.filter (fun b => decide (spec_matched xr yr tol b))
  let matched := matchedList.length
  let coverage : ℚ :=
    if 0 < bosses_uv.length then (matched : ℚ) / (bosses_uv.length : ℚ) else 0
  if matched = 0 then -1
  else
    let avgError :=
      (matchedList.map (fun b => (nearest_dist xr b.1 + nearest_dist yr b.2) / 2)).sum
        / (matched : ℚ)
    let errorNorm := avgError / max tol (1 / 1000000)
    max (-1) (min 1 (coverage - (1 / 4) * errorNorm - (1 / 20) * (1 - coverage)))

-- ### C9 lemmas ------------------------------------------------------------

theorem np_argmin_go_val (bi : ℕ) (bv : ℚ) (i : ℕ) (xs : List ℚ) :
    (np_argmin_go (bi, bv) i xs).2 = xs.foldl min bv := by
  induction xs generalizing bi bv i with
  | nil => simp [np_argmin_go]
  | cons x xs ih =>
    rw [np_argmin_go, List.foldl_cons]
    split
    · rename_i hx
      rw [ih]
      have : min bv x = x := min_eq_right (le_of_lt hx)
      rw [this]
    · rename_i hx
      rw [ih]
      have : min bv x = bv := min_eq_left (le_of_not_lt hx)
      rw [this]

theorem nearest_dist_cons (r : ℚ) (rs : List ℚ) (x : ℚ) :
    nearest_dist (r :: rs) x = (rs.map (fun t => |t - x|)).foldl min |r - x| := by
  unfold nearest_dist
  rw [List.map_cons]
  rfl

theorem np_argmin_pair_spec (f : ℚ → ℚ) (r : ℚ) (rs : List ℚ) :
    ∃ i, np_argmin_pair ((r :: rs).map (fun t => f t)) =
      .ok (i, (rs.map (fun t => f t)).foldl min (f r)) := by
  rw [List.map_cons]
  unfold np_argmin_pair
  exact ⟨_, by rw [← np_argmin_go_val 0 (f r) 1 (rs.map (fun t => f t))]⟩

theorem match_boss_to_ratios_ok (b : QPoint) (xr yr : List ℚ) (tol : ℚ)
    (hx : xr ≠ []) (hy : yr ≠ []) :
    ∃ xi yi, match_boss_to_ratios b xr yr tol = .ok
      ((if nearest_dist xr b.1 ≤ tol then some xi else none),
        (if nearest_dist yr b.2 ≤ tol then some yi else none),
        nearest_dist xr b.1, nearest_dist yr b.2) := by
  rcases xr with _ | ⟨r, rs⟩
  · exact absurd rfl hx
  rcases yr with _ | ⟨q, qs⟩
  · exact absurd rfl hy
  obtain ⟨i, hi⟩ := np_argmin_pair_spec (fun t => |t - b.1|) r rs
  obtain ⟨j, hj⟩ := np_argmin_pair_spec (fun t => |t - b.2|) q qs
  refine ⟨i, j, ?_⟩
  unfold match_boss_to_ratios
  rw [hi, hj]
  rw [nearest_dist_cons, nearest_dist_cons]
  rfl

theorem except_ok_bind {ε α β : Type} (a : α) (f : α → Except ε β) :
    (Except.ok a : Except ε α) >>= f = f a := rfl

theorem except_pure_eq_ok {ε α : Type} (a : α) :
    (pure a : Except ε α) = Except.ok a := rfl

theorem score_fold_ok (xr yr : List ℚ) (tol : ℚ) (hx : xr ≠ []) (hy : yr ≠ [])
    (bosses : List QPoint) (acc : ℕ × ℚ × ℚ) :
    bosses.foldlM (score_boss_step xr yr tol) acc = .ok
      (acc.1 + (bosses.filter (fun b => decide (spec_matched xr yr tol b))).length,
        acc.2.1 + ((bosses.filter (fun b => decide (spec_matched xr yr tol b))).map
          (fun b => nearest_dist xr b.1)).sum,
        acc.2.2 + ((bosses.filter (fun b => decide (spec_matched xr yr tol b))).map
          (fun b => nearest_dist yr b.2)).sum) := by
  induction bosses generalizing acc with
  | nil => simp; rfl
  | cons b rest ih =>
    rw [List.foldlM_cons]
    obtain ⟨xi, yi, hb⟩ := match_boss_to_ratios_ok b xr yr tol hx hy
    have hstep : score_boss_step xr yr tol acc b = .ok
        (if spec_matched xr yr tol b then
          (acc.1 + 1, acc.2.1 + nearest_dist xr b.1, acc.2.2 + nearest_dist yr b.2)
        else acc) := by
      unfold score_boss_step
      rw [hb]
      by_cases h1 : nearest_dist xr b.1 ≤ tol <;>
        by_cases h2 : nearest_dist yr b.2 ≤ tol
      · rw [if_pos h1, if_pos h2, except_ok_bind,
          if_pos (show spec_matched xr yr tol b from ⟨h1, h2⟩)]
        simp [except_pure_eq_ok]
      · rw [if_pos h1, if_neg h2, except_ok_bind,
          if_neg (show ¬ spec_matched xr yr tol b from fun hc => h2 hc.2)]
        simp [except_pure_eq_ok]
      · rw [if_neg h1, if_pos h2, except_ok_bind,
          if_neg (show ¬ spec_matched xr yr tol b from fun hc => h1 hc.1)]
        simp [except_pure_eq_ok]
      · rw [if_neg h1, if_neg h2, except_ok_bind,
          if_neg (show ¬ spec_matched xr yr tol b from fun hc => h1 hc.1)]
        simp [except_pure_eq_ok]
    rw [hstep]
    by_cases hm : spec_matched xr yr tol b
    · rw [if_pos hm]
      rw [except_ok_bind]
      rw [ih]
      rw [List.filter_cons_of_pos (by simpa using hm)]
      simp only [List.length_cons, List.map_cons, List.sum_cons, Prod.mk.injEq]
      refine congrArg Except.ok ?_
      simp only [Prod.mk.injEq]
      refine ⟨by omega, by ring, by ring⟩
    · rw [if_neg hm]
      rw [except_ok_bind]
      rw [ih]
      rw [List.filter_cons_of_neg (by simpa using hm)]

theorem np_unique_ne_nil {l : List ℚ} (h : l ≠ []) : np_unique l ≠ [] := by
  unfold np_unique
  intro hc
  have hlen := congrArg List.length hc
  rw [List.length_insertionSort] at hlen
  simp at hlen
  exact h hlen

theorem sum_map_avg (l : List QPoint) (f g : QPoint → ℚ) :
    (l.map (fun b => (f b + g b) / 2)).sum = ((l.map f).sum + (l.map g).sum) / 2 := by
  induction l with
  | nil => simp
  | cons b t ih =>
    simp only [List.map_cons, List.sum_cons, ih]
    ring

/-- C9: `score_template_ratios` computes exactly the specification's formula:
coverage and matched count from the both-axes-within-tolerance predicate on
nearest-ratio distances, `errorNorm = avgError / max(tol, 1e-6)`, score
`clamp(coverage - 0.25*errorNorm - 0.05*(1-coverage), -1, 1)`, with an
infinite error norm (hence clamped score `-1`) when no boss matches. -/
theorem c9_score_template_formula (template_uv bosses_uv : List QPoint)
    (tol : ℚ) (ht : template_uv ≠ []) :
    ∃ r, score_template_ratios template_uv bosses_uv tol = .ok r ∧
      r.score = score_spec template_uv bosses_uv tol ∧
      r.matched_bosses = (bosses_uv.filter (fun b => decide (spec_matched
        (np_unique (template_uv.map Prod.fst))
        (np_unique (template_uv.map Prod.snd)) tol b))).length ∧
      r.n_bosses = bosses_uv.length ∧
      (r.error_norm = none ↔ r.matched_bosses = 0) ∧
      (r.matched_bosses = 0 → r.score = -1) := by
  have hxne : np_unique (template_uv.map Prod.fst) ≠ [] :=
    np_unique_ne_nil (by simpa using ht)
  have hyne : np_unique (template_uv.map Prod.snd) ≠ [] :=
    np_unique_ne_nil (by simpa using ht)
  have hfold := score_fold_ok (np_unique (template_uv.map Prod.fst))
    (np_unique (template_uv.map Prod.snd)) tol hxne hyne bosses_uv (0, 0, 0)
  unfold score_template_ratios extract_template_ratios
  dsimp only
  rw [hfold, except_ok_bind]
  dsimp only [score_spec]
  simp only [Nat.zero_add, zero_add]
  by_cases hL0 : 0 < (bosses_uv.filter (fun b => decide (spec_matched
      (np_unique (template_uv.map Prod.fst))
      (np_unique (template_uv.map Prod.snd)) tol b))).length
  · have hne0 : (bosses_uv.filter (fun b => decide (spec_matched
        (np_unique (template_uv.map Prod.fst))
        (np_unique (template_uv.map Prod.snd)) tol b))).length ≠ 0 := by omega
    rw [dif_pos hL0, if_neg hne0]
    refine ⟨_, rfl, ?_, rfl, rfl, by simp [hne0], fun h0 => absurd h0 hne0⟩
    have havg : ((bosses_uv.filter (fun b => decide (spec_matched
          (np_unique (template_uv.map Prod.fst))
          (np_unique (template_uv.map Prod.snd)) tol b))).map
          (fun b => (nearest_dist (np_unique (template_uv.map Prod.fst)) b.1 +
            nearest_dist (np_unique (template_uv.map Prod.snd)) b.2) / 2)).sum =
        (((bosses_uv.filter (fun b => decide (spec_matched
          (np_unique (template_uv.map Prod.fst))
          (np_unique (template_uv.map Prod.snd)) tol b))).map
          (fun b => nearest_dist (np_unique (template_uv.map Prod.fst)) b.1)).sum +
        ((bosses_uv.filter (fun b => decide (spec_matched
          (np_unique (template_uv.map Prod.fst))
          (np_unique (template_uv.map Prod.snd)) tol b))).map
          (fun b => nearest_dist (np_unique (template_uv.map Prod.snd)) b.2)).sum) / 2 :=
      sum_map_avg _ _ _
    rw [havg, div_div]
    ring_nf
  · have h0 : (bosses_uv.filter (fun b => decide (spec_matched
        (np_unique (template_uv.map Prod.fst))
        (np_unique (template_uv.map Prod.snd)) tol b))).length = 0 := by omega
    rw [dif_neg hL0, if_pos h0]
    exact ⟨_, rfl, rfl, rfl, rfl, by simp [h0], fun _ => rfl⟩

/-- Boss set for the C9 witness: five bosses lying exactly on the
`standard(4)` grid. -/
def scenario_d_bosses : List QPoint :=
  [(0, 0), (1 / 4, 1 / 2), (1 / 2, 3 / 4), (3 / 4, 1 / 4), (1, 1)]

/-- Witness for C9: scenario D, five bosses exactly on the `standard(4)` grid
at tolerance `0.01` give `matched_bosses = 5` and score `1`. -/
theorem c9_score_template_formula_witness :
    grid_intersections 4 ≠ [] ∧
    (∃ r, score_template_ratios (grid_intersections 4) scenario_d_bosses (1 / 100) = .ok r ∧
      r.score = score_spec (grid_intersections 4) scenario_d_bosses (1 / 100) ∧
      r.matched_bosses = (scenario_d_bosses.filter (fun b => decide (spec_matched
        (np_unique ((grid_intersections 4).map Prod.fst))
        (np_unique ((grid_intersections 4).map Prod.snd)) (1 / 100) b))).length ∧
      r.n_bosses = scenario_d_bosses.length ∧
      (r.error_norm = none ↔ r.matched_bosses = 0) ∧
      (r.matched_bosses = 0 → r.score = -1)) ∧
    score_template_ratios (grid_intersections 4) scenario_d_bosses (1 / 100) =
      .ok ⟨1, 1, some 0, some 0, 5, 5⟩ :=
  ⟨by with_unfolding_all decide,
    c9_score_template_formula _ _ _ (by with_unfolding_all decide),
    by with_unfolding_all decide⟩

-- ### `roi_math.py` --------------------------------------------------------

/-- ROI parameter record: centre (pixels), width/height (pixels) of the
axis-local rectangle, rotation about the centre in degrees. -/
structure RoiParams where
  cx : ℝ
  cy : ℝ
  w : ℝ
  h : ℝ
  rotation_deg : ℝ

/-- Python `math.radians`. -/
noncomputable def radians (x : ℝ) : ℝ := x * (Real.pi / 180)

/-- Source `image_to_unit`: map image pixel coordinates into ROI unit-square
coordinates; raises `ValueError` when the ROI width or height is zero. -/
noncomputable def image_to_unit (point_xy : ℝ × ℝ) (roi : RoiParams) :
    Except String (ℝ × ℝ) :=
  if roi.w = 0 ∨ roi.h = 0 then
    .error ("ROI width/height cannot be zero when converting coordinates")
  else
    let angle := radians roi.rotation_deg
    let dx := point_xy.1 - roi.cx
    let dy := point_xy.2 - roi.cy
    let s := Real.sin angle
    let c := Real.cos angle
    let x_local := c * dx + s * dy
    let y_local := -s * dx + c * dy
    .ok (x_local / roi.w + 1 / 2, y_local / roi.h + 1 / 2)

/-- Source `unit_to_image`: map ROI unit-square coordinates into image pixel
coordinates. The source performs no degeneracy check here; the function is
total. -/
noncomputable def unit_to_image (point_uv : ℝ × ℝ) (roi : RoiParams) : ℝ × ℝ :=
  let angle := radians roi.rotation_deg
  let x_local := (point_uv.1 - 1 / 2) * roi.w
  let y_local := (point_uv.2 - 1 / 2) * roi.h
  let s := Real.sin angle
  let c := Real.cos angle
  (roi.cx + c * x_local - s * y_local, roi.cy + s * x_local + c * y_local)

theorem image_to_unit_ok {roi : RoiParams} (hw : roi.w ≠ 0) (hh : roi.h ≠ 0)
    (p : ℝ × ℝ) :
    image_to_unit p roi = .ok
      ((Real.cos (radians roi.rotation_deg) * (p.1 - roi.cx) +
        Real.sin (radians roi.rotation_deg) * (p.2 - roi.cy)) / roi.w + 1 / 2,
       (-Real.sin (radians roi.rotation_deg) * (p.1 - roi.cx) +
        Real.cos (radians roi.rotation_deg) * (p.2 - roi.cy)) / roi.h + 1 / 2) := by
  unfold image_to_unit
  rw [if_neg (by rintro (hc | hc) <;> [exact hw hc; exact hh hc])]

/-- C1: for every ROI with positive width and height, `image_to_unit` and
`unit_to_image` are mutual inverses: both round trips reproduce the input
point within `1e-6` (they are in fact exact over the reals). -/
theorem c1_roi_roundtrip (roi : RoiParams) (p q : ℝ × ℝ)
    (hw : 0 < roi.w) (hh : 0 < roi.h) :
    (∃ uv, image_to_unit p roi = .ok uv ∧
      |(unit_to_image uv roi).1 - p.1| ≤ 1 / 1000000 ∧
      |(unit_to_image uv roi).2 - p.2| ≤ 1 / 1000000) ∧
    (∃ p', image_to_unit (unit_to_image q roi) roi = .ok p' ∧
      |p'.1 - q.1| ≤ 1 / 1000000 ∧ |p'.2 - q.2| ≤ 1 / 1000000) := by
  have hwne : roi.w ≠ 0 := ne_of_gt hw
  have hhne : roi.h ≠ 0 := ne_of_gt hh
  have hsc : Real.sin (radians roi.rotation_deg) ^ 2 +
      Real.cos (radians roi.rotation_deg) ^ 2 = 1 :=
    Real.sin_sq_add_cos_sq (radians roi.rotation_deg)
  set s := Real.sin (radians roi.rotation_deg) with hs
  set c := Real.cos (radians roi.rotation_deg) with hc
  have hc2 : c ^ 2 = 1 - s ^ 2 := by linarith [hsc]
  constructor
  · refine ⟨_, image_to_unit_ok hwne hhne p, ?_, ?_⟩
    · have hval : (unit_to_image
          ((c * (p.1 - roi.cx) + s * (p.2 - roi.cy)) / roi.w + 1 / 2,
           (-s * (p.1 - roi.cx) + c * (p.2 - roi.cy)) / roi.h + 1 / 2) roi).1 = p.1 := by
        unfold unit_to_image
        dsimp only
        rw [← hs, ← hc]
        field_simp
        ring_nf
        rw [hc2]
        ring
      rw [hval]
      simp
    · have hval : (unit_to_image
          ((c * (p.1 - roi.cx) + s * (p.2 - roi.cy)) / roi.w + 1 / 2,
           (-s * (p.1 - roi.cx) + c * (p.2 - roi.cy)) / roi.h + 1 / 2) roi).2 = p.2 := by
        unfold unit_to_image
        dsimp only
        rw [← hs, ← hc]
        field_simp
        ring_nf
        rw [hc2]
        ring
      rw [hval]
      simp
  · refine ⟨_, image_to_unit_ok hwne hhne (unit_to_image q roi), ?_, ?_⟩
    · have hval : (c * ((unit_to_image q roi).1 - roi.cx) +
          s * ((unit_to_image q roi).2 - roi.cy)) / roi.w + 1 / 2 = q.1 := by
        unfold unit_to_image
        dsimp only
        rw [← hs, ← hc]
        field_simp
        ring_nf
        rw [hc2]
        ring
      rw [hval]
      simp
    · have hval : (-s * ((unit_to_image q roi).1 - roi.cx) +
          c * ((unit_to_image q roi).2 - roi.cy)) / roi.h + 1 / 2 = q.2 := by
        unfold unit_to_image
        dsimp only
        rw [← hs, ← hc]
        field_simp
        ring_nf
        rw [hc2]
        ring
      rw [hval]
      simp

/-- Witness for C1 at scenario A's ROI and concrete pixel and unit points. -/
theorem c1_roi_roundtrip_witness :
    ((0 : ℝ) < (80 : ℝ) ∧ (0 : ℝ) < (80 : ℝ)) ∧
    ((∃ uv, image_to_unit ((140 : ℝ), (100 : ℝ)) ⟨100, 100, 80, 80, 0⟩ = .ok uv ∧
      |(unit_to_image uv ⟨100, 100, 80, 80, 0⟩).1 - (140 : ℝ)| ≤ 1 / 1000000 ∧
      |(unit_to_image uv ⟨100, 100, 80, 80, 0⟩).2 - (100 : ℝ)| ≤ 1 / 1000000) ∧
    (∃ p', image_to_unit
        (unit_to_image ((3 / 10 : ℝ), (7 / 10 : ℝ)) ⟨100, 100, 80, 80, 0⟩)
        ⟨100, 100, 80, 80, 0⟩ = .ok p' ∧
      |p'.1 - (3 / 10 : ℝ)| ≤ 1 / 1000000 ∧ |p'.2 - (7 / 10 : ℝ)| ≤ 1 / 1000000)) :=
  ⟨by norm_num,
    c1_roi_roundtrip ⟨100, 100, 80, 80, 0⟩ (140, 100) (3 / 10, 7 / 10)
      (by norm_num) (by norm_num)⟩

/-- C2 counterexample: for the degenerate ROI with `w = 0`, `unit_to_image`
does not fail: it silently returns a definite pixel value, so the claim that
both conversions raise on a degenerate ROI is false. -/
theorem c2_degenerate_roi_counterexample :
    (RoiParams.mk 5 7 0 3 0).w = 0 ∧
    unit_to_image ((9 / 10 : ℝ), (1 / 4 : ℝ)) ⟨5, 7, 0, 3, 0⟩ =
      ((5 : ℝ), (25 / 4 : ℝ)) := by
  refine ⟨rfl, ?_⟩
  unfold unit_to_image radians
  norm_num

/-- C2 (amended): `image_to_unit` raises the degenerate-ROI `ValueError`
exactly when `w = 0` or `h = 0`; `unit_to_image` performs no such check and
always returns a value — for `w = 0` the result is independent of the `u`
coordinate (the axis collapses) instead of being an error. -/
theorem c2_degenerate_roi_behaviour (roi : RoiParams) (p q q' : ℝ × ℝ) :
    (image_to_unit p roi =
        .error ("ROI width/height cannot be zero when converting coordinates") ↔
      (roi.w = 0 ∨ roi.h = 0)) ∧
    (roi.w = 0 → q.2 = q'.2 → unit_to_image q roi = unit_to_image q' roi) := by
  constructor
  · constructor
    · intro herr
      by_contra hc
      rw [image_to_unit_ok (fun h0 => hc (Or.inl h0)) (fun h0 => hc (Or.inr h0)) p] at herr
      exact Except.noConfusion herr
    · intro hdeg
      unfold image_to_unit
      rw [if_pos hdeg]
  · intro hw0 hq2
    unfold unit_to_image
    dsimp only
    rw [hw0, hq2]
    norm_num

/-- Witness for C2 at a concrete degenerate ROI: the error really fires for
`image_to_unit`, and two unit points differing only in `u` map to the same
pixel when `w = 0`. -/
theorem c2_degenerate_roi_behaviour_witness :
    image_to_unit ((1 : ℝ), (2 : ℝ)) ⟨5, 7, 0, 3, 0⟩ =
      .error ("ROI width/height cannot be zero when converting coordinates") ∧
    unit_to_image ((0 : ℝ), (1 / 4 : ℝ)) ⟨5, 7, 0, 3, 0⟩ =
      unit_to_image ((1 : ℝ), (1 / 4 : ℝ)) ⟨5, 7, 0, 3, 0⟩ :=
  ⟨(c2_degenerate_roi_behaviour ⟨5, 7, 0, 3, 0⟩ (1, 2) (0, 1 / 4) (1, 1 / 4)).1.mpr
      (Or.inl rfl),
    (c2_degenerate_roi_behaviour ⟨5, 7, 0, 3, 0⟩ (1, 2) (0, 1 / 4) (1, 1 / 4)).2
      rfl rfl⟩

-- ### `template_keypoints.py`: real-valued circle templates ----------------

/-- A 2D point with real coordinates (circle-template geometry is
irrational in general). -/
abbrev RPoint : Type := ℝ × ℝ

/-- Worker loop of `_dedupe_points` over the reals, with `math.hypot` kept as
a literal square root (the membership test mirrors `any(... <= tol ...)`). -/
noncomputable def dedupe_points_goR (tol : ℝ) (out : List RPoint) :
    List RPoint → List RPoint
  | [] => out
  | p :: rest =>
    let p6 : RPoint := (roundTo 6 p.1, roundTo 6 p.2)
    if ∃ q ∈ out, Real.sqrt ((p6.1 - q.1) ^ 2 + (p6.2 - q.2) ^ 2) ≤ tol then
      dedupe_points_goR tol out rest
    else
      dedupe_points_goR tol (out ++ [p6]) rest

/-- Source `_dedupe_points` over the reals. -/
noncomputable def dedupe_pointsR (pts : List RPoint) (tol : ℝ) : List RPoint :=
  dedupe_points_goR tol [] pts

/-- Source `_segment_intersection` (tolerance fixed at its default `1e-9`). -/
noncomputable def segment_intersection (a b c d : RPoint) : Option RPoint :=
  let tol : ℝ := 1 / 1000000000
  let r_x := b.1 - a.1
  let r_y := b.2 - a.2
  let s_x := d.1 - c.1
  let s_y := d.2 - c.2
  let denom := r_x * s_y - r_y * s_x
  if |denom| ≤ tol then none
  else
    let u_x := c.1 - a.1
    let u_y := c.2 - a.2
    let t := (u_x * s_y - u_y * s_x) / denom
    let u := (u_x * r_y - u_y * r_x) / denom
    if -tol ≤ t ∧ t ≤ 1 + tol ∧ -tol ≤ u ∧ u ≤ 1 + tol then
      some (clip_unit (a.1 + t * r_x), clip_unit (a.2 + t * r_y))
    else none

/-- Python `itertools.combinations(l, 2)` as ordered pairs. -/
def pair_combinations {α : Type} : List α → List (α × α)
  | [] => []
  | x :: xs => (xs.map (fun y => (x, y))) ++ pair_combinations xs

/-- Source `_collect_segment_intersections`. -/
noncomputable def collect_segment_intersections
    (segments : List (RPoint × RPoint)) : List RPoint :=
  (pair_combinations segments).filterMap
    (fun sp => segment_intersection sp.1.1 sp.1.2 sp.2.1 sp.2.2)

/-- Source `_circle_radius_px`. -/
noncomputable def circle_radius_px (variant : String) (w h : ℝ) :
    Except String ℝ :=
  if variant = ("inner") then .ok (1 / 2 * max w h)
  else if variant = ("outer") then .ok (1 / 2 * Real.sqrt (w ^ 2 + h ^ 2))
  else .error ("variant must be 'inner' or 'outer'")

/-- Source `_ray_circle_point`. -/
noncomputable def ray_circle_point (centre target : RPoint) (radius : ℝ) :
    RPoint :=
  let v : RPoint := (target.1 - centre.1, target.2 - centre.2)
  let n := Real.sqrt (v.1 ^ 2 + v.2 ^ 2)
  if n = 0 then centre
  else (centre.1 + radius * (v.1 / n), centre.2 + radius * (v.2 / n))

/-- One candidate parameter of `_line_circle_intersections`: keep the clipped
unit-space point when `t` lies in the segment range. -/
noncomputable def line_circle_point (roi : RoiParams) (s : RPoint)
    (dx dy t : ℝ) : Except String (Option RPoint) :=
  let tol : ℝ := 1 / 1000000000
  if -tol ≤ t ∧ t ≤ 1 + tol then
    (image_to_unit (s.1 + t * dx, s.2 + t * dy) roi).map
      (fun uv => some (clip_unit uv.1, clip_unit uv.2))
  else
    .ok none

/-- Source `_line_circle_intersections` (tolerance fixed at its default
`1e-9`; the two quadratic roots are processed in source order `-1, +1`). -/
noncomputable def line_circle_intersections (start_uv end_uv : RPoint)
    (roi : RoiParams) (radius_px : ℝ) : Except String (List RPoint) := do
  let tol : ℝ := 1 / 1000000000
  let s := unit_to_image start_uv roi
  let e := unit_to_image end_uv roi
  let dx := e.1 - s.1
  let dy := e.2 - s.2
  let a := dx * dx + dy * dy
  if a ≤ tol then
    pure []
  else
    let fx := s.1 - roi.cx
    let fy := s.2 - roi.cy
    let b := 2 * (dx * fx + dy * fy)
    let c := fx * fx + fy * fy - radius_px * radius_px
    let disc := b * b - 4 * a * c
    if disc < -tol then
      pure []
    else
      let sqrt_disc := Real.sqrt (max 0 disc)
      let r1 ← line_circle_point roi s dx dy ((-b + (-1) * sqrt_disc) / (2 * a))
      let r2 ← line_circle_point roi s dx dy ((-b + 1 * sqrt_disc) / (2 * a))
      pure (dedupe_pointsR (r1.toList ++ r2.toList) (1 / 1000000))

/-- Source `_circle_cardinals_unit`, returning the four cardinal points
`(pt, pr, pb, pl)`. -/
noncomputable def circle_cardinals_unit (variant : String) (roi : RoiParams) :
    Except String (RPoint × RPoint × RPoint × RPoint) := do
  let r_px ← circle_radius_px variant roi.w roi.h
  let mt := unit_to_image (1 / 2, 0) roi
  let mr := unit_to_image (1, 1 / 2) roi
  let mb := unit_to_image (1 / 2, 1) roi
  let ml := unit_to_image (0, 1 / 2) roi
  let pt ← image_to_unit (ray_circle_point (roi.cx, roi.cy) mt r_px) roi
  let pr ← image_to_unit (ray_circle_point (roi.cx, roi.cy) mr r_px) roi
  let pb ← image_to_unit (ray_circle_point (roi.cx, roi.cy) mb r_px) roi
  let pl ← image_to_unit (ray_circle_point (roi.cx, roi.cy) ml r_px) roi
  let tb := (|pt.2 - 0| + |pb.2 - 1|) / 2
  let lr := (|pl.1 - 0| + |pr.1 - 1|) / 2
  pure ((pt.1, 0 - tb), (1 + lr, pr.2), (pb.1, 1 + tb), (0 - lr, pl.2))

/-- Source `_circle_segments`: the 16 construction segments (diagonals,
borders, mid-lines, corner-to-cardinal spokes) plus the cardinal points. -/
noncomputable def circle_segments (variant : String) (roi : RoiParams) :
    Except String (List (RPoint × RPoint) × List RPoint) := do
  let cards ← circle_cardinals_unit variant roi
  let pt := cards.1
  let pr := cards.2.1
  let pb := cards.2.2.1
  let pl := cards.2.2.2
  pure ([((0, 0), (1, 1)), ((1, 0), (0, 1)),
    ((0, 0), (0, 1)), ((0, 0), (1, 0)), ((0, 1), (1, 1)), ((1, 1), (1, 0)),
    (pt, pb), (pl, pr),
    ((0, 0), pb), ((0, 0), pr), ((1, 0), pl), ((1, 0), pb),
    ((1, 1), pl), ((1, 1), pt), ((0, 1), pr), ((0, 1), pt)],
    [pt, pr, pb, pl])

/-- The rational grid construction cast into the reals (the source shares
`_grid_intersections` between the rational and real call sites; the
construction is exact rational arithmetic, embedded once over `ℚ` above). -/
noncomputable def grid_intersectionsR (n : ℤ) : List RPoint :=
  (grid_intersections n).map (fun p => ((p.1 : ℝ), (p.2 : ℝ)))

/-- Source `generate_keypoints`. -/
noncomputable def generate_keypoints (variant : String) (n : Option ℤ)
    (roi : Option RoiParams) : Except String (List RPoint) :=
  if variant = ("standard") then
    match n with
    | none => .error ("standard variant requires n >= 2")
    | some nv =>
      if nv < 2 then .error ("standard variant requires n >= 2")
      else .ok (grid_intersectionsR nv)
  else if variant = ("inner") ∨ variant = ("outer") then
    match roi with
    | none => .error ("circle variants require roi params")
    | some r => do
      let radius_px ← circle_radius_px variant r.w r.h
      let sc ← circle_segments variant r
      let segments := sc.1
      let cardinals := sc.2
      let inter := collect_segment_intersections segments
      let circ ← segments.foldlM (fun (acc : List RPoint) seg => do
          let ps ← line_circle_intersections seg.1 seg.2 r radius_px
          pure (acc ++ ps)) []
      pure (dedupe_pointsR (cardinals ++ inter ++ circ) (1 / 100))
  else .error ("variant must be 'standard', 'inner', or 'outer'")

-- ### `roi_correction.py` --------------------------------------------------

/-- Model of `np.linspace(a, b, n)` with the default inclusive endpoint
(`np.linspace(a, b, 1)` is `[a]`). -/
noncomputable def np_linspace (a b : ℝ) (n : ℕ) : List ℝ :=
  if n = 0 then []
  else if n = 1 then [a]
  else (List.range n).map (fun i => a + (Nat.cast i : ℝ) * (b - a) / ((n : ℝ) - 1))

/-- `np.sort(np.unique(...))` over the reals (`np.unique` already sorts, the
outer sort is a no-op). -/
noncomputable def np_uniqueR (l : List ℝ) : List ℝ :=
  (l.dedup).insertionSort (· ≤ ·)

/-- Model of `np.min`, which raises on an empty array. -/
noncomputable def np_minR : List ℝ → Except String ℝ
  | [] => .error ("zero-size array to reduction operation minimum")
  | x :: xs => .ok (xs.foldl min x)

/-- Per-template part of the loop body of `_score_roi` (the source computes
`bosses_uv` once before the loop; it is passed in here). No-match templates
produce `score = coverage - 0.25 * inf - ... = -inf`, clamped to `-1`. -/
noncomputable def score_one_template (bosses_uv : List RPoint)
    (x_ratios y_ratios : List ℝ) (tolerance : ℝ) : Except String ℝ := do
  let dists ← bosses_uv.mapM (fun b => do
      let xd ← np_minR (x_ratios.map (fun r => |b.1 - r|))
      let yd ← np_minR (y_ratios.map (fun r => |b.2 - r|))
      pure (xd, yd))
  let matchedList := dists.filter (fun d => decide (d.1 ≤ tolerance ∧ d.2 ≤ tolerance))
  let matched_bosses := matchedList.length
  let n_bosses := bosses_uv.length
  let boss_coverage : ℝ :=
    if 0 < n_bosses then (matched_bosses : ℝ) / (n_bosses : ℝ) else 0
  if 0 < matched_bosses then
    let avg_error := ((matchedList.map Prod.fst).sum + (matchedList.map Prod.snd).sum)
      / (2 * (matched_bosses : ℝ))
    let error_norm := avg_error / max tolerance (1 / 1000000)
    pure (max (-1) (min 1 (boss_coverage - (1 / 4) * error_norm -
      (1 / 20) * (1 - boss_coverage))))
  else
    pure (-1)

/-- Source `_score_roi`: best template score for one candidate ROI. The
`float("-inf")` accumulator start is modelled as `-2`, strictly below the
clamp floor `-1` of every template score (the candidate list is never empty
in the source, so the start value is always replaced). -/
noncomputable def score_roi (roi : RoiParams) (bosses_xy : List RPoint)
    (candidate_ratios : List (List ℝ × List ℝ)) (tolerance : ℝ) :
    Except String ℝ := do
  let bosses_uv ← bosses_xy.mapM (fun p => image_to_unit p roi)
  let scores ← candidate_ratios.mapM
    (fun rp => score_one_template bosses_uv rp.1 rp.2 tolerance)
  pure (scores.foldl max (-2))

/-- Source `_regularisation_penalty`. -/
noncomputable def regularisation_penalty (dx dy sw sh drot : ℝ)
    (xy_range rotation_range : ℝ) (include_scale include_rotation : Bool) : ℝ :=
  let p := (dx / max xy_range (1 / 1000000)) ^ 2 + (dy / max xy_range (1 / 1000000)) ^ 2
  let p := if include_scale then p + (sw - 1) ^ 2 + (sh - 1) ^ 2 else p
  if include_rotation then p + (drot / max rotation_range (1 / 1000000)) ^ 2 else p

/-- The grid divisors generated by `auto_correct_roi_params`:
`range(n_range[0], min(n_range[1] + 1, 6))`. -/
def auto_correct_grid_ns (n_range : ℤ × ℤ) : List ℤ :=
  pyRange n_range.1 (min (n_range.2 + 1) 6)

/-- The fixed candidate template list of `auto_correct_roi_params`: standard
grids for the generated divisors plus the inner circle template. -/
noncomputable def auto_correct_candidates (original_roi : RoiParams)
    (n_range : ℤ × ℤ) : Except String (List (List RPoint)) := do
  let grids ← (auto_correct_grid_ns n_range).mapM
    (fun nv => generate_keypoints ("standard") (some nv) none)
  let inner ← generate_keypoints ("inner") none (some original_roi)
  pure (grids ++ [inner])

/-- The per-template sorted unique ratio pairs derived from the candidate
templates. -/
noncomputable def auto_correct_candidate_ratios (original_roi : RoiParams)
    (n_range : ℤ × ℤ) : Except String (List (List ℝ × List ℝ)) := do
  let cands ← auto_correct_candidates original_roi n_range
  pure (cands.map (fun t => (np_uniqueR (t.map Prod.fst), np_uniqueR (t.map Prod.snd))))

/-- The winning perturbation record of the search. -/
structure AutoDelta where
  dx : ℝ
  dy : ℝ
  sw : ℝ
  sh : ℝ
  drot_deg : ℝ

/-- Result of `auto_correct_roi_params` (the echoed search-metadata fields of
the payload are omitted; they are copies of the inputs). -/
structure AutoCorrectResult where
  params : RoiParams
  improved : Bool
  base_score : ℝ
  best_score : ℝ
  score_gain : ℝ
  delta : AutoDelta

/-- Running state of the brute-force search loop. -/
structure SearchState where
  best_obj : ℝ
  best_score : ℝ
  best_roi : RoiParams
  best_delta : AutoDelta

/-- One iteration of the nested perturbation loops of
`auto_correct_roi_params` at perturbation `(dx, dy, sw, sh, drot)`. -/
noncomputable def auto_correct_step (original_roi : RoiParams)
    (bosses_xy : List RPoint) (candidate_ratios : List (List ℝ × List ℝ))
    (tolerance xy_range rotation_range regularisation_weight : ℝ)
    (include_scale include_rotation : Bool)
    (st : SearchState) (pert : ℝ × ℝ × ℝ × ℝ × ℝ) :
    Except String SearchState := do
  let roi_test : RoiParams :=
    { cx := original_roi.cx + pert.1
      cy := original_roi.cy + pert.2.1
      w := original_roi.w * pert.2.2.1
      h := original_roi.h * pert.2.2.2.1
      rotation_deg := original_roi.rotation_deg + pert.2.2.2.2 }
  let score ← score_roi roi_test bosses_xy candidate_ratios tolerance
  let penalty := regularisation_penalty pert.1 pert.2.1 pert.2.2.1 pert.2.2.2.1
    pert.2.2.2.2 xy_range rotation_range include_scale include_rotation
  let objective := score - regularisation_weight * penalty
  if st.best_obj < objective then
    pure ⟨objective, score, roi_test,
      ⟨pert.1, pert.2.1, pert.2.2.1, pert.2.2.2.1, pert.2.2.2.2⟩⟩
  else
    pure st

/-- Body of `auto_correct_roi_params` after the validity guards. -/
noncomputable def auto_correct_body (original_roi : RoiParams)
    (bosses_xy : List RPoint) (tolerance xy_step xy_range : ℝ)
    (n_range : ℤ × ℤ) (include_scale : Bool) (scale_step scale_range : ℝ)
    (include_rotation : Bool)
    (rotation_step rotation_range regularisation_weight improvement_margin : ℝ) :
    Except String AutoCorrectResult := do
  let candidate_ratios ← auto_correct_candidate_ratios original_roi n_range
  let n_xy := (max 1 (pyRound (2 * xy_range / xy_step) + 1)).toNat
  let dx_vals := np_linspace (-xy_range) xy_range n_xy
  let dy_vals := np_linspace (-xy_range) xy_range n_xy
  let sw_vals := if include_scale then
      np_linspace (1 - scale_range) (1 + scale_range)
        ((max 1 (pyRound (2 * scale_range / scale_step) + 1)).toNat)
    else [1]
  let sh_vals := if include_scale then
      np_linspace (1 - scale_range) (1 + scale_range)
        ((max 1 (pyRound (2 * scale_range / scale_step) + 1)).toNat)
    else [1]
  let rot_vals := if include_rotation then
      np_linspace (-rotation_range) rotation_range
        ((max 1 (pyRound (2 * rotation_range / rotation_step) + 1)).toNat)
    else [0]
  let base_score ← score_roi original_roi bosses_xy candidate_ratios tolerance
  let perturbs := dx_vals.flatMap (fun dx => dy_vals.flatMap (fun dy =>
    sw_vals.flatMap (fun sw => sh_vals.flatMap (fun sh =>
      rot_vals.map (fun dr => (dx, dy, sw, sh, dr))))))
  let st ← perturbs.foldlM
    (auto_correct_step original_roi bosses_xy candidate_ratios tolerance
      xy_range rotation_range regularisation_weight include_scale include_rotation)
    ⟨base_score, base_score, original_roi, ⟨0, 0, 1, 1, 0⟩⟩
  let improved := if base_score + improvement_margin < st.best_score then true else false
  if improved then
    pure ⟨st.best_roi, true, base_score, st.best_score,
      st.best_score - base_score, st.best_delta⟩
  else
    pure ⟨original_roi, false, base_score, base_score,
      base_score - base_score, ⟨0, 0, 1, 1, 0⟩⟩

/-- Source `auto_correct_roi_params`: validity guards produce the structured
`None` failure; a raise inside the search propagates as an error. -/
noncomputable def auto_correct_roi_params (original_roi : RoiParams)
    (bosses_xy : List RPoint) (tolerance xy_step xy_range : ℝ)
    (n_range : ℤ × ℤ) (include_scale : Bool) (scale_step scale_range : ℝ)
    (include_rotation : Bool)
    (rotation_step rotation_range regularisation_weight improvement_margin : ℝ) :
    Except String (Option AutoCorrectResult) :=
  if bosses_xy.length < 2 then .ok none
  else if xy_step ≤ 0 ∨ scale_step ≤ 0 ∨ rotation_step ≤ 0 then .ok none
  else if xy_range < 0 ∨ scale_range < 0 ∨ rotation_range < 0 then .ok none
  else if regularisation_weight < 0 ∨ improvement_margin < 0 then .ok none
  else (auto_correct_body original_roi bosses_xy tolerance xy_step xy_range
    n_range include_scale scale_step scale_range include_rotation
    rotation_step rotation_range regularisation_weight improvement_margin).map some

/-- C8 (amended): `auto_correct_roi_params` returns the structured
no-correction failure (`None`) exactly when a step is non-positive, a range
is negative, the regularisation weight or improvement margin is negative, or
fewer than two bosses are supplied. (Ranges equal to zero are accepted, and
the weight/margin guards are additional failure conditions the claim
omitted.) -/
theorem c8_auto_correct_failure_iff (original_roi : RoiParams)
    (bosses_xy : List RPoint) (tolerance xy_step xy_range : ℝ)
    (n_range : ℤ × ℤ) (include_scale : Bool) (scale_step scale_range : ℝ)
    (include_rotation : Bool)
    (rotation_step rotation_range regularisation_weight improvement_margin : ℝ) :
    auto_correct_roi_params original_roi bosses_xy tolerance xy_step xy_range
      n_range include_scale scale_step scale_range include_rotation
      rotation_step rotation_range regularisation_weight improvement_margin = .ok none ↔
    (bosses_xy.length < 2 ∨ xy_step ≤ 0 ∨ scale_step ≤ 0 ∨ rotation_step ≤ 0 ∨
      xy_range < 0 ∨ scale_range < 0 ∨ rotation_range < 0 ∨
      regularisation_weight < 0 ∨ improvement_margin < 0) := by
  unfold auto_correct_roi_params
  by_cases h1 : bosses_xy.length < 2
  · rw [if_pos h1]
    simp [h1]
  rw [if_neg h1]
  by_cases h2 : xy_step ≤ 0 ∨ scale_step ≤ 0 ∨ rotation_step ≤ 0
  · rw [if_pos h2]
    simp [h1]
    tauto
  rw [if_neg h2]
  by_cases h3 : xy_range < 0 ∨ scale_range < 0 ∨ rotation_range < 0
  · rw [if_pos h3]
    simp [h1, h2]
    tauto
  rw [if_neg h3]
  by_cases h4 : regularisation_weight < 0 ∨ improvement_margin < 0
  · rw [if_pos h4]
    simp [h1, h2, h3]
    tauto
  rw [if_neg h4]
  constructor
  · intro hc
    cases hbody : auto_correct_body original_roi bosses_xy tolerance xy_step
      xy_range n_range include_scale scale_step scale_range include_rotation
      rotation_step rotation_range regularisation_weight improvement_margin with
    | error e =>
      rw [hbody] at hc
      exact Except.noConfusion hc
    | ok b =>
      rw [hbody] at hc
      simp [Except.map] at hc
  · intro hc
    exfalso
    rcases hc with hc | hc | hc | hc | hc | hc | hc | hc | hc
    · exact h1 hc
    · exact h2 (Or.inl hc)
    · exact h2 (Or.inr (Or.inl hc))
    · exact h2 (Or.inr (Or.inr hc))
    · exact h3 (Or.inl hc)
    · exact h3 (Or.inr (Or.inl hc))
    · exact h3 (Or.inr (Or.inr hc))
    · exact h4 (Or.inl hc)
    · exact h4 (Or.inr hc)

/-- C8 counterexample: with two bosses, strictly positive steps and ranges
(so the claim's validity condition holds), a negative improvement margin
still produces the structured failure, which the claim says cannot happen. -/
theorem c8_auto_correct_failure_counterexample :
    auto_correct_roi_params ⟨0, 0, 2, 2, 0⟩ [((0 : ℝ), (0 : ℝ)), ((1 : ℝ), (1 : ℝ))]
      (1 / 100) 1 1 (2, 2) true (1 / 100) (1 / 100) true (1 / 2) 1 0 (-1) = .ok none ∧
    ¬((([((0 : ℝ), (0 : ℝ)), ((1 : ℝ), (1 : ℝ))] : List RPoint).length < 2) ∨
      (1 : ℝ) ≤ 0 ∨ (1 / 100 : ℝ) ≤ 0 ∨ (1 / 2 : ℝ) ≤ 0 ∨
      (1 : ℝ) ≤ 0 ∨ (1 / 100 : ℝ) ≤ 0 ∨ (1 : ℝ) ≤ 0) := by
  constructor
  · unfold auto_correct_roi_params
    rw [if_neg (by norm_num), if_neg (by push_neg; norm_num),
      if_neg (by push_neg; norm_num), if_pos (Or.inr (by norm_num))]
  · push_neg
    norm_num

/-- Witness for C8: the failure characterisation applied at a concrete input
with a single boss really produces the structured failure. -/
theorem c8_auto_correct_failure_witness :
    auto_correct_roi_params ⟨0, 0, 2, 2, 0⟩ [((5 : ℝ), (5 : ℝ))]
      (1 / 100) 1 1 (2, 2) true (1 / 100) (1 / 100) true (1 / 2) 1 0 0 = .ok none :=
  (c8_auto_correct_failure_iff ⟨0, 0, 2, 2, 0⟩ [((5 : ℝ), (5 : ℝ))]
    (1 / 100) 1 1 (2, 2) true (1 / 100) (1 / 100) true (1 / 2) 1 0 0).mpr
    (Or.inl (by norm_num))

-- ### C7: the fixed candidate template set ----------------------------------

theorem dedupe_points_goR_length_ge (tol : ℝ) (out : List RPoint)
    (pts : List RPoint) :
    out.length ≤ (dedupe_points_goR tol out pts).length := by
  induction pts generalizing out with
  | nil => simp [dedupe_points_goR]
  | cons p rest ih =>
    rw [dedupe_points_goR]
    split
    · exact ih out
    · refine le_trans ?_ (ih (out ++ [((roundTo 6 p.1 : ℝ), (roundTo 6 p.2 : ℝ))]))
      simp

theorem dedupe_pointsR_ne_nil (tol : ℝ) (p : RPoint) (rest : List RPoint) :
    dedupe_pointsR (p :: rest) tol ≠ [] := by
  unfold dedupe_pointsR
  rw [dedupe_points_goR]
  have h0 : ¬ ∃ q ∈ ([] : List RPoint),
      Real.sqrt (((roundTo 6 p.1 : ℝ) - q.1) ^ 2 +
        ((roundTo 6 p.2 : ℝ) - q.2) ^ 2) ≤ tol := by simp
  rw [if_neg h0]
  intro hc
  have hlen := dedupe_points_goR_length_ge tol
    ([] ++ [((roundTo 6 p.1 : ℝ), (roundTo 6 p.2 : ℝ))]) rest
  rw [hc] at hlen
  simp at hlen

theorem except_bind_ok_of {ε α β : Type} {m : Except ε α} {f : α → Except ε β}
    (hm : ∃ a, m = .ok a) (hf : ∀ a, ∃ b, f a = .ok b) :
    ∃ b, m >>= f = .ok b := by
  obtain ⟨a, ha⟩ := hm
  obtain ⟨b, hb⟩ := hf a
  exact ⟨b, by rw [ha, except_ok_bind, hb]⟩

theorem list_mapM_ok {ε α β : Type} (f : α → Except ε β) (g : α → β)
    (l : List α) (h : ∀ x ∈ l, f x = .ok (g x)) : l.mapM f = .ok (l.map g) := by
  induction l with
  | nil => rfl
  | cons x xs ih =>
    rw [List.mapM_cons, h x (List.mem_cons_self x xs), except_ok_bind,
      ih (fun y hy => h y (List.mem_cons_of_mem x hy)), except_ok_bind,
      List.map_cons, except_pure_eq_ok]

theorem circle_cardinals_unit_ok (roi : RoiParams) (hw : roi.w ≠ 0)
    (hh : roi.h ≠ 0) :
    ∃ cards, circle_cardinals_unit ("inner") roi = .ok cards := by
  unfold circle_cardinals_unit circle_radius_px
  rw [if_pos rfl]
  simp only [except_ok_bind, image_to_unit_ok hw hh, except_pure_eq_ok]
  exact ⟨_, rfl⟩

theorem circle_segments_ok (roi : RoiParams) (hw : roi.w ≠ 0) (hh : roi.h ≠ 0) :
    ∃ sc, circle_segments ("inner") roi = .ok sc ∧
      ∃ p1 p2 p3 p4, sc.2 = [p1, p2, p3, p4] := by
  obtain ⟨cards, hcards⟩ := circle_cardinals_unit_ok roi hw hh
  unfold circle_segments
  rw [hcards, except_ok_bind]
  exact ⟨_, rfl, cards.1, cards.2.1, cards.2.2.1, cards.2.2.2, rfl⟩

theorem line_circle_point_ok (roi : RoiParams) (hw : roi.w ≠ 0)
    (hh : roi.h ≠ 0) (s : RPoint) (dx dy t : ℝ) :
    ∃ o, line_circle_point roi s dx dy t = .ok o := by
  simp only [line_circle_point]
  split
  · rw [image_to_unit_ok hw hh]
    exact ⟨_, rfl⟩
  · exact ⟨none, rfl⟩

theorem line_circle_intersections_ok (start_uv end_uv : RPoint)
    (roi : RoiParams) (hw : roi.w ≠ 0) (hh : roi.h ≠ 0) (radius_px : ℝ) :
    ∃ l, line_circle_intersections start_uv end_uv roi radius_px = .ok l := by
  simp only [line_circle_intersections]
  split
  · exact ⟨[], rfl⟩
  · split
    · exact ⟨[], rfl⟩
    · refine except_bind_ok_of (line_circle_point_ok roi hw hh _ _ _ _)
        (fun r1 => ?_)
      refine except_bind_ok_of (line_circle_point_ok roi hw hh _ _ _ _)
        (fun r2 => ?_)
      exact ⟨_, rfl⟩

theorem circ_fold_ok (roi : RoiParams) (hw : roi.w ≠ 0) (hh : roi.h ≠ 0)
    (radius_px : ℝ) (segs : List (RPoint × RPoint)) (acc : List RPoint) :
    ∃ l, segs.foldlM (fun (acc : List RPoint) seg => do
        let ps ← line_circle_intersections seg.1 seg.2 roi radius_px
        pure (acc ++ ps)) acc = .ok l := by
  induction segs generalizing acc with
  | nil => exact ⟨acc, rfl⟩
  | cons seg rest ih =>
    rw [List.foldlM_cons]
    refine except_bind_ok_of ?_ (fun acc2 => ih acc2)
    exact except_bind_ok_of
      (line_circle_intersections_ok seg.1 seg.2 roi hw hh radius_px)
      (fun ps => ⟨_, rfl⟩)

theorem generate_keypoints_inner_ok (roi : RoiParams) (hw : roi.w ≠ 0)
    (hh : roi.h ≠ 0) :
    ∃ L, generate_keypoints ("inner") none (some roi) = .ok L ∧ L ≠ [] := by
  obtain ⟨sc, hsc, p1, p2, p3, p4, hsc2⟩ := circle_segments_ok roi hw hh
  obtain ⟨circ, hcirc⟩ := circ_fold_ok roi hw hh (1 / 2 * max roi.w roi.h) sc.1 []
  unfold generate_keypoints
  rw [if_neg (by simp), if_pos (Or.inl rfl)]
  have hr : circle_radius_px ("inner") roi.w roi.h = .ok (1 / 2 * max roi.w roi.h) := by
    unfold circle_radius_px
    rw [if_pos rfl]
  dsimp only
  rw [hr]
  simp only [except_ok_bind]
  rw [hsc]
  simp only [except_ok_bind]
  rw [hcirc]
  simp only [except_ok_bind, except_pure_eq_ok]
  refine ⟨_, rfl, ?_⟩
  rw [hsc2]
  exact dedupe_pointsR_ne_nil _ _ _

/-- C7 (amended): the fixed candidate template set built by
`auto_correct_roi_params` is exactly the standard grids for the divisors in
`range(n_range[0], min(n_range[1] + 1, 6))` — that is, every integer `n` with
`n_range[0] <= n <= min(n_range[1], 5)`, never `n = 6` — followed by the inner
circlecut template generated from the original ROI. -/
theorem c7_auto_correct_candidates (original_roi : RoiParams)
    (n_range : ℤ × ℤ) (hn : 2 ≤ n_range.1) (hw : original_roi.w ≠ 0)
    (hh : original_roi.h ≠ 0) :
    ∃ inner, generate_keypoints ("inner") none (some original_roi) = .ok inner ∧
      auto_correct_candidates original_roi n_range =
        .ok ((auto_correct_grid_ns n_range).map grid_intersectionsR ++ [inner]) ∧
      ∀ nv : ℤ, nv ∈ auto_correct_grid_ns n_range ↔
        n_range.1 ≤ nv ∧ nv ≤ min n_range.2 5 := by
  obtain ⟨inner, hinner, -⟩ := generate_keypoints_inner_ok original_roi hw hh
  refine ⟨inner, hinner, ?_, ?_⟩
  · unfold auto_correct_candidates
    have hgrids : (auto_correct_grid_ns n_range).mapM
        (fun nv => generate_keypoints ("standard") (some nv) none) =
        .ok ((auto_correct_grid_ns n_range).map grid_intersectionsR) := by
      apply list_mapM_ok
      intro nv hnv
      have h2 : 2 ≤ nv := by
        have := (mem_pyRange.mp hnv).1
        omega
      unfold generate_keypoints
      rw [if_pos rfl]
      dsimp only
      rw [if_neg (by omega : ¬ nv < 2)]
    rw [hgrids, except_ok_bind, hinner, except_ok_bind, except_pure_eq_ok]
  · intro nv
    unfold auto_correct_grid_ns
    rw [mem_pyRange]
    omega

/-- C7 counterexample: with the default configured range 2–6 the divisor list
actually generated is `[2, 3, 4, 5]`; the grid for `n = 6` promised by the
claim is never built (`range(n0, min(n1 + 1, 6))` stops at 5). -/
theorem c7_auto_correct_candidates_counterexample :
    auto_correct_grid_ns (2, 6) = [2, 3, 4, 5] ∧
      (6 : ℤ) ∉ auto_correct_grid_ns (2, 6) := by
  constructor
  · with_unfolding_all decide
  · with_unfolding_all decide

/-- C7 witness: the amended statement instantiated at the default range 2–6
and a non-degenerate ROI. -/
theorem c7_auto_correct_candidates_witness :
    ∃ inner, generate_keypoints ("inner") none (some ⟨0, 0, 2, 2, 0⟩) = .ok inner ∧
      auto_correct_candidates ⟨0, 0, 2, 2, 0⟩ (2, 6) =
        .ok ((auto_correct_grid_ns (2, 6)).map grid_intersectionsR ++ [inner]) ∧
      ∀ nv : ℤ, nv ∈ auto_correct_grid_ns (2, 6) ↔
        2 ≤ nv ∧ nv ≤ min 6 5 :=
  c7_auto_correct_candidates ⟨0, 0, 2, 2, 0⟩ (2, 6) (by norm_num)
    (by show (2 : ℝ) ≠ 0; norm_num) (by show (2 : ℝ) ≠ 0; norm_num)

-- ### C6: score-based acceptance of the ROI auto-correction ------------------

theorem except_bind_eq_ok {ε α β : Type} {m : Except ε α} {f : α → Except ε β}
    {b : β} (h : m >>= f = .ok b) : ∃ a, m = .ok a ∧ f a = .ok b := by
  cases m with
  | error e => exact Except.noConfusion h
  | ok a => exact ⟨a, rfl, h⟩

theorem except_map_some_ok {ε α : Type} {m : Except ε α} (h : ∃ a, m = .ok a) :
    ∃ a, m.map some = .ok (some a) := by
  obtain ⟨a, ha⟩ := h
  exact ⟨a, by rw [ha]; rfl⟩

theorem list_mapM_ok_of {ε α β : Type} (f : α → Except ε β) (l : List α)
    (h : ∀ x ∈ l, ∃ y, f x = .ok y) : ∃ ys, l.mapM f = .ok ys := by
  induction l with
  | nil => exact ⟨[], rfl⟩
  | cons x xs ih =>
    rw [List.mapM_cons]
    refine except_bind_ok_of (h x (List.mem_cons_self x xs)) (fun y => ?_)
    refine except_bind_ok_of (ih (fun z hz => h z (List.mem_cons_of_mem x hz)))
      (fun ys => ?_)
    exact ⟨_, rfl⟩

theorem np_minR_ok (l : List ℝ) (h : l ≠ []) : ∃ v, np_minR l = .ok v := by
  cases l with
  | nil => exact absurd rfl h
  | cons x xs => exact ⟨_, rfl⟩

theorem np_uniqueR_ne_nil {l : List ℝ} (h : l ≠ []) : np_uniqueR l ≠ [] := by
  unfold np_uniqueR
  intro hc
  have hlen := congrArg List.length hc
  rw [List.length_insertionSort] at hlen
  simp at hlen
  exact h hlen

theorem grid_intersectionsR_ne_nil {nv : ℤ} (h1 : 1 ≤ nv)
    (hlt : nv < 500000) : grid_intersectionsR nv ≠ [] := by
  have hmem := grid_corner_mem h1 hlt (Or.inl rfl) (Or.inl rfl)
  unfold grid_intersectionsR
  intro hc
  rw [List.map_eq_nil_iff] at hc
  rw [hc] at hmem
  exact List.not_mem_nil _ hmem

theorem score_one_template_ok (bosses_uv : List RPoint) (xr yr : List ℝ)
    (tol : ℝ) (hx : xr ≠ []) (hy : yr ≠ []) :
    ∃ s, score_one_template bosses_uv xr yr tol = .ok s := by
  simp only [score_one_template]
  refine except_bind_ok_of (list_mapM_ok_of _ _ ?_) (fun dists => ?_)
  · intro b _
    refine except_bind_ok_of (np_minR_ok _ (by simpa using hx)) (fun xd => ?_)
    refine except_bind_ok_of (np_minR_ok _ (by simpa using hy)) (fun yd => ?_)
    exact ⟨_, rfl⟩
  · split
    · exact ⟨_, rfl⟩
    · exact ⟨_, rfl⟩

theorem score_roi_ok (roi : RoiParams) (hw : roi.w ≠ 0) (hh : roi.h ≠ 0)
    (bosses_xy : List RPoint) (cr : List (List ℝ × List ℝ)) (tol : ℝ)
    (hcr : ∀ pr ∈ cr, pr.1 ≠ [] ∧ pr.2 ≠ []) :
    ∃ s, score_roi roi bosses_xy cr tol = .ok s := by
  simp only [score_roi]
  refine except_bind_ok_of
    (list_mapM_ok_of _ _ (fun p _ => ⟨_, image_to_unit_ok hw hh p⟩))
    (fun uv => ?_)
  refine except_bind_ok_of
    (list_mapM_ok_of _ _ (fun pr hpr =>
      score_one_template_ok uv pr.1 pr.2 tol (hcr pr hpr).1 (hcr pr hpr).2))
    (fun scores => ?_)
  exact ⟨_, rfl⟩

theorem auto_correct_candidate_ratios_ok (original_roi : RoiParams)
    (hw : original_roi.w ≠ 0) (hh : original_roi.h ≠ 0) (n_range : ℤ × ℤ)
    (hn : 2 ≤ n_range.1) :
    ∃ cr, auto_correct_candidate_ratios original_roi n_range = .ok cr ∧
      ∀ pr ∈ cr, pr.1 ≠ [] ∧ pr.2 ≠ [] := by
  obtain ⟨inner, hinner, hinner_ne⟩ :=
    generate_keypoints_inner_ok original_roi hw hh
  have hgrids : (auto_correct_grid_ns n_range).mapM
      (fun nv => generate_keypoints ("standard") (some nv) none) =
      .ok ((auto_correct_grid_ns n_range).map grid_intersectionsR) := by
    apply list_mapM_ok
    intro nv hnv
    have h2 : 2 ≤ nv := by
      have := (mem_pyRange.mp hnv).1
      omega
    unfold generate_keypoints
    rw [if_pos rfl]
    dsimp only
    rw [if_neg (by omega : ¬ nv < 2)]
  unfold auto_correct_candidate_ratios auto_correct_candidates
  rw [hgrids]
  simp only [except_ok_bind]
  rw [hinner]
  simp only [except_ok_bind, except_pure_eq_ok]
  refine ⟨_, rfl, ?_⟩
  intro pr hpr
  rw [List.mem_map] at hpr
  obtain ⟨t, ht, rfl⟩ := hpr
  have htne : t ≠ [] := by
    rcases List.mem_append.mp ht with hmem | hmem
    · rw [List.mem_map] at hmem
      obtain ⟨nv, hnv, rfl⟩ := hmem
      unfold auto_correct_grid_ns at hnv
      have hb := mem_pyRange.mp hnv
      exact grid_intersectionsR_ne_nil (by omega) (by omega)
    · rw [List.mem_singleton] at hmem
      subst hmem
      exact hinner_ne
  exact ⟨np_uniqueR_ne_nil (by simpa using htne),
    np_uniqueR_ne_nil (by simpa using htne)⟩

theorem perturbs_no_scale_mem (dxs dys : List ℝ) (p : ℝ × ℝ × ℝ × ℝ × ℝ)
    (hp : p ∈ dxs.flatMap (fun dx => dys.flatMap (fun dy =>
      ([1] : List ℝ).flatMap (fun sw => ([1] : List ℝ).flatMap (fun sh =>
        ([0] : List ℝ).map (fun dr => (dx, dy, sw, sh, dr))))))) :
    p.2.2.1 = 1 ∧ p.2.2.2.1 = 1 := by
  simp only [List.mem_flatMap, List.mem_map, List.mem_singleton,
    List.mem_cons, List.not_mem_nil, or_false, exists_eq_left] at hp
  obtain ⟨dx, -, dy, -, rfl⟩ := hp
  exact ⟨rfl, rfl⟩

theorem auto_correct_step_ok (original_roi : RoiParams)
    (bosses_xy : List RPoint) (cr : List (List ℝ × List ℝ))
    (tolerance xy_range rotation_range rweight : ℝ) (isc irot : Bool)
    (hcr : ∀ pr ∈ cr, pr.1 ≠ [] ∧ pr.2 ≠ []) (st : SearchState)
    (pert : ℝ × ℝ × ℝ × ℝ × ℝ)
    (hw : original_roi.w * pert.2.2.1 ≠ 0)
    (hh : original_roi.h * pert.2.2.2.1 ≠ 0) :
    ∃ st2, auto_correct_step original_roi bosses_xy cr tolerance xy_range
      rotation_range rweight isc irot st pert = .ok st2 := by
  simp only [auto_correct_step]
  refine except_bind_ok_of (score_roi_ok _ hw hh bosses_xy cr tolerance hcr)
    (fun score => ?_)
  split
  · exact ⟨_, rfl⟩
  · exact ⟨_, rfl⟩

theorem auto_correct_fold_ok (original_roi : RoiParams)
    (bosses_xy : List RPoint) (cr : List (List ℝ × List ℝ))
    (tolerance xy_range rotation_range rweight : ℝ) (isc irot : Bool)
    (hcr : ∀ pr ∈ cr, pr.1 ≠ [] ∧ pr.2 ≠ []) :
    ∀ (perts : List (ℝ × ℝ × ℝ × ℝ × ℝ)),
      (∀ p ∈ perts, original_roi.w * p.2.2.1 ≠ 0 ∧
        original_roi.h * p.2.2.2.1 ≠ 0) →
      ∀ st0 : SearchState, ∃ st, perts.foldlM
        (auto_correct_step original_roi bosses_xy cr tolerance xy_range
          rotation_range rweight isc irot) st0 = .ok st := by
  intro perts
  induction perts with
  | nil =>
    intro _ st0
    exact ⟨st0, rfl⟩
  | cons p rest ih =>
    intro hperts st0
    rw [List.foldlM_cons]
    refine except_bind_ok_of
      (auto_correct_step_ok original_roi bosses_xy cr tolerance xy_range
        rotation_range rweight isc irot hcr st0 p
        (hperts p (List.mem_cons_self p rest)).1
        (hperts p (List.mem_cons_self p rest)).2)
      (fun st1 => ih (fun q hq => hperts q (List.mem_cons_of_mem p hq)) st1)

theorem auto_correct_fold_invariant (original_roi : RoiParams)
    (bosses_xy : List RPoint) (cr : List (List ℝ × List ℝ))
    (tolerance xy_range rotation_range rweight : ℝ) (isc irot : Bool) :
    ∀ (perts : List (ℝ × ℝ × ℝ × ℝ × ℝ)) (st0 st1 : SearchState),
      score_roi st0.best_roi bosses_xy cr tolerance = .ok st0.best_score →
      perts.foldlM (auto_correct_step original_roi bosses_xy cr tolerance
        xy_range rotation_range rweight isc irot) st0 = .ok st1 →
      score_roi st1.best_roi bosses_xy cr tolerance = .ok st1.best_score := by
  intro perts
  induction perts with
  | nil =>
    intro st0 st1 h0 hf
    have heq : st0 = st1 := Except.ok.inj hf
    rw [← heq]
    exact h0
  | cons p rest ih =>
    intro st0 st1 h0 hf
    rw [List.foldlM_cons] at hf
    obtain ⟨st', hstep, hf⟩ := except_bind_eq_ok hf
    refine ih st' st1 ?_ hf
    simp only [auto_correct_step] at hstep
    obtain ⟨score, hscore, hstep⟩ := except_bind_eq_ok hstep
    split at hstep
    · rw [← Except.ok.inj hstep]
      exact hscore
    · rw [← Except.ok.inj hstep]
      exact h0

theorem auto_correct_roi_params_ok (original_roi : RoiParams)
    (hw : original_roi.w ≠ 0) (hh : original_roi.h ≠ 0)
    (bosses_xy : List RPoint) (tolerance xy_step xy_range : ℝ)
    (n_range : ℤ × ℤ) (hn : 2 ≤ n_range.1)
    (scale_step scale_range rotation_step rotation_range rweight imargin : ℝ)
    (hb : ¬ bosses_xy.length < 2)
    (hsteps : ¬ (xy_step ≤ 0 ∨ scale_step ≤ 0 ∨ rotation_step ≤ 0))
    (hranges : ¬ (xy_range < 0 ∨ scale_range < 0 ∨ rotation_range < 0))
    (hrm : ¬ (rweight < 0 ∨ imargin < 0)) :
    ∃ res, auto_correct_roi_params original_roi bosses_xy tolerance xy_step
      xy_range n_range false scale_step scale_range false rotation_step
      rotation_range rweight imargin = .ok (some res) := by
  obtain ⟨cr, hcr, hcrne⟩ :=
    auto_correct_candidate_ratios_ok original_roi hw hh n_range hn
  obtain ⟨base, hbase⟩ :=
    score_roi_ok original_roi hw hh bosses_xy cr tolerance hcrne
  unfold auto_correct_roi_params
  rw [if_neg hb, if_neg hsteps, if_neg hranges, if_neg hrm]
  refine except_map_some_ok ?_
  simp only [auto_correct_body]
  rw [hcr]
  simp only [except_ok_bind]
  rw [hbase]
  simp only [except_ok_bind]
  refine except_bind_ok_of ?_ (fun st => ?_)
  · apply auto_correct_fold_ok original_roi bosses_xy cr tolerance xy_range
      rotation_range rweight false false hcrne
    intro p hp
    have hpm := perturbs_no_scale_mem _ _ p (by simpa using hp)
    rw [hpm.1, hpm.2]
    simp [hw, hh]
  · split
    · exact ⟨_, rfl⟩
    · exact ⟨_, rfl⟩

theorem except_map_some_eq_ok {ε α : Type} {m : Except ε α} {r : α}
    (h : m.map some = .ok (some r)) : m = .ok r := by
  cases m with
  | error e => exact Except.noConfusion h
  | ok a =>
    have ha : some a = some r := Except.ok.inj h
    rw [Option.some.inj ha]

/-- C6: whenever `auto_correct_roi_params` returns a result, the acceptance
decision compares the best perturbation's *score* (its true template score —
not the regularised objective used to pick it) against the baseline score plus
`improvement_margin`; `improved = true` holds exactly when that strict
comparison succeeds, and whenever `improved = false` the returned parameters
equal the input ROI exactly, the reported best score equals the baseline score
and the score gain is zero. -/
theorem c6_auto_correct_acceptance (original_roi : RoiParams)
    (bosses_xy : List RPoint) (tolerance xy_step xy_range : ℝ)
    (n_range : ℤ × ℤ) (include_scale : Bool) (scale_step scale_range : ℝ)
    (include_rotation : Bool)
    (rotation_step rotation_range regularisation_weight improvement_margin : ℝ)
    (res : AutoCorrectResult)
    (h : auto_correct_roi_params original_roi bosses_xy tolerance xy_step
      xy_range n_range include_scale scale_step scale_range include_rotation
      rotation_step rotation_range regularisation_weight improvement_margin =
      .ok (some res)) :
    ∃ cr, auto_correct_candidate_ratios original_roi n_range = .ok cr ∧
      score_roi original_roi bosses_xy cr tolerance = .ok res.base_score ∧
      score_roi res.params bosses_xy cr tolerance = .ok res.best_score ∧
      (res.improved = true ↔
        res.base_score + improvement_margin < res.best_score) ∧
      (res.improved = false → res.params = original_roi ∧
        res.best_score = res.base_score ∧ res.score_gain = 0) := by
  unfold auto_correct_roi_params at h
  split at h
  · simp at h
  split at h
  · simp at h
  split at h
  · simp at h
  split at h
  · simp at h
  rename_i hg1 hg2 hg3 hg4
  have hbody := except_map_some_eq_ok h
  simp only [auto_correct_body] at hbody
  obtain ⟨cr, hcr, hbody⟩ := except_bind_eq_ok hbody
  obtain ⟨base, hbase, hbody⟩ := except_bind_eq_ok hbody
  obtain ⟨st, hfold, hbody⟩ := except_bind_eq_ok hbody
  by_cases hcond : base + improvement_margin < st.best_score
  · rw [if_pos hcond, if_pos rfl] at hbody
    have hres : _ = res := Except.ok.inj hbody
    subst hres
    refine ⟨cr, hcr, hbase, ?_, ?_, ?_⟩
    · exact auto_correct_fold_invariant original_roi bosses_xy cr tolerance
        xy_range rotation_range regularisation_weight include_scale
        include_rotation _ _ _ hbase hfold
    · exact ⟨fun _ => hcond, fun _ => rfl⟩
    · intro hf
      exact Bool.noConfusion hf
  · rw [if_neg hcond, if_neg (by simp)] at hbody
    have hres : _ = res := Except.ok.inj hbody
    subst hres
    have hm : 0 ≤ improvement_margin := by
      rcases lt_or_ge improvement_margin 0 with hmm | hmm
      · exact absurd (Or.inr hmm) hg4
      · exact hmm
    refine ⟨cr, hcr, hbase, hbase, ?_, ?_⟩
    · dsimp only
      constructor
      · intro hf
        exact Bool.noConfusion hf
      · intro hc
        exfalso
        linarith
    · intro _
      exact ⟨rfl, rfl, sub_self base⟩

/-- Witness for C6: a concrete two-boss search input really returns a result,
and the acceptance characterisation holds at it. -/
theorem c6_auto_correct_acceptance_witness :
    ∃ res, auto_correct_roi_params ⟨0, 0, 2, 2, 0⟩
        [((0 : ℝ), (0 : ℝ)), ((1 : ℝ), (1 : ℝ))] (1 / 100) 1 1 (2, 2) false
        (1 / 100) 0 false 1 0 0 0 = .ok (some res) ∧
      ∃ cr, auto_correct_candidate_ratios ⟨0, 0, 2, 2, 0⟩ (2, 2) = .ok cr ∧
        score_roi ⟨0, 0, 2, 2, 0⟩ [((0 : ℝ), (0 : ℝ)), ((1 : ℝ), (1 : ℝ))] cr
          (1 / 100) = .ok res.base_score ∧
        score_roi res.params [((0 : ℝ), (0 : ℝ)), ((1 : ℝ), (1 : ℝ))] cr
          (1 / 100) = .ok res.best_score ∧
        (res.improved = true ↔ res.base_score + 0 < res.best_score) ∧
        (res.improved = false → res.params = ⟨0, 0, 2, 2, 0⟩ ∧
          res.best_score = res.base_score ∧ res.score_gain = 0) := by
  obtain ⟨res, hres⟩ := auto_correct_roi_params_ok ⟨0, 0, 2, 2, 0⟩
    (by show (2 : ℝ) ≠ 0; norm_num) (by show (2 : ℝ) ≠ 0; norm_num)
    [((0 : ℝ), (0 : ℝ)), ((1 : ℝ), (1 : ℝ))] (1 / 100) 1 1 (2, 2) (by decide)
    (1 / 100) 0 1 0 0 0 (by decide) (by push_neg; norm_num)
    (by push_neg; norm_num) (by push_neg; norm_num)
  exact ⟨res, hres, c6_auto_correct_acceptance ⟨0, 0, 2, 2, 0⟩
    [((0 : ℝ), (0 : ℝ)), ((1 : ℝ), (1 : ℝ))] (1 / 100) 1 1 (2, 2) false
    (1 / 100) 0 false 1 0 0 0 res hres⟩

-- ### `reconstruction_rib_guidance.py`: constraint selection (C4) -----------

/-- Source `Node` dataclass of `reconstruction_graph.py` (uv coordinates and
pixel coordinates; floats are embedded as exact rationals / integers). -/
structure Node where
  node_id : String
  uv : ℚ × ℚ
  xy : ℤ × ℤ
  source : String
  boss_id : Option String
deriving DecidableEq

instance : Inhabited Node := ⟨⟨"", (0, 0), (0, 0), "", none⟩⟩

/-- `nodes[i].uv` (Python would raise on an out-of-range index; accesses in
the verified paths are in range, the default is never exercised there). -/
def node_uv (nodes : List Node) (i : ℕ) : ℚ × ℚ := (nodes.getD i default).uv

/-- Python `tuple(sorted((a, b)))` for an index pair. -/
def sortPair (e : ℕ × ℕ) : ℕ × ℕ := if e.1 ≤ e.2 then e else (e.2, e.1)

/-- Lexicographic order on index pairs, as used by Python `sorted` on tuples. -/
def edge_le (a b : ℕ × ℕ) : Prop := a.1 < b.1 ∨ (a.1 = b.1 ∧ a.2 ≤ b.2)

instance : DecidableRel edge_le := fun a b => by unfold edge_le; infer_instance

/-- Source `_orientation` (tolerance `1e-9` on the cross product). -/
def orientation (a b c : ℚ × ℚ) : ℤ :=
  let val := (b.2 - a.2) * (c.1 - b.1) - (b.1 - a.1) * (c.2 - b.2)
  if |val| ≤ 1 / 1000000000 then 0
  else if 0 < val then 1 else -1

/-- Source `_on_segment`. -/
def on_segment (a b c : ℚ × ℚ) : Prop :=
  min a.1 c.1 ≤ b.1 ∧ b.1 ≤ max a.1 c.1 ∧
    min a.2 c.2 ≤ b.2 ∧ b.2 ≤ max a.2 c.2

instance (a b c : ℚ × ℚ) : Decidable (on_segment a b c) := by
  unfold on_segment
  infer_instance

/-- Source `_segments_intersect` (shared vertices are allowed and never count
as a crossing). -/
def segments_intersect (p1 p2 p3 p4 : ℚ × ℚ) : Bool :=
  if p1 = p3 ∨ p1 = p4 ∨ p2 = p3 ∨ p2 = p4 then false
  else
    let o1 := orientation p1 p2 p3
    let o2 := orientation p1 p2 p4
    let o3 := orientation p3 p4 p1
    let o4 := orientation p3 p4 p2
    if o1 ≠ o2 ∧ o3 ≠ o4 then true
    else if o1 = 0 ∧ on_segment p1 p3 p2 then true
    else if o2 = 0 ∧ on_segment p1 p4 p2 then true
    else if o3 = 0 ∧ on_segment p3 p1 p4 then true
    else if o4 = 0 ∧ on_segment p3 p2 p4 then true
    else false

/-- Source `_edge_crosses_selected`: edges sharing an endpoint index with the
candidate are skipped. -/
def edge_crosses_selected (nodes : List Node) (edge : ℕ × ℕ)
    (selected_edges : List (ℕ × ℕ)) : Bool :=
  selected_edges.any (fun kl =>
    if edge.1 = kl.1 ∨ edge.1 = kl.2 ∨ edge.2 = kl.1 ∨ edge.2 = kl.2 then false
    else segments_intersect (node_uv nodes edge.1) (node_uv nodes edge.2)
      (node_uv nodes kl.1) (node_uv nodes kl.2))

/-- The normalised protected-edge set of `select_constraint_edges`
(`{tuple(sorted((a, b))) for a, b in protected_edges if a != b}`). -/
def normalised_protected (protected_edges : List (ℕ × ℕ)) : List (ℕ × ℕ) :=
  ((protected_edges.filter (fun ab => decide (ab.1 ≠ ab.2))).map sortPair).dedup

/-- Source `try_add` inner helper of `select_constraint_edges` (its boolean
return value is unused at every call site and dropped here). -/
def try_add (nodes : List Node) (enforce_planarity : Bool)
    (selected : List (ℕ × ℕ)) (edge : ℕ × ℕ) : List (ℕ × ℕ) :=
  if edge ∈ selected then selected
  else if enforce_planarity = true ∧
      edge_crosses_selected nodes edge selected = true then selected
  else selected ++ [edge]

/-- First admission pass of `select_constraint_edges`: scored edges meeting
`min_score`, in descending score order. -/
def select_threshold_pass (nodes : List Node) (enforce_planarity : Bool)
    (min_score : ℚ) (ordered : List ((ℕ × ℕ) × ℚ))
    (selected : List (ℕ × ℕ)) : List (ℕ × ℕ) :=
  ordered.foldl (fun sel em =>
    if min_score ≤ em.2 then try_add nodes enforce_planarity sel em.1 else sel)
    selected

/-- Second admission pass: when nothing beyond the protected edges was
admitted, try the top-N scored edges. -/
def select_fallback_pass (nodes : List Node) (enforce_planarity : Bool)
    (fallback_top_n : ℤ) (protected_list : List (ℕ × ℕ))
    (ordered : List ((ℕ × ℕ) × ℚ)) (selected : List (ℕ × ℕ)) :
    List (ℕ × ℕ) :=
  if (selected.filter (fun e => decide (e ∉ protected_list))).length = 0 ∧
      ordered ≠ [] then
    (ordered.take (max 1 fallback_top_n).toNat).foldl
      (fun sel em => try_add nodes enforce_planarity sel em.1) selected
  else selected

/-- Third admission pass: give each boss node at least one incident edge when
a sufficiently scored incident candidate exists. -/
def select_boss_pass (nodes : List Node) (enforce_planarity : Bool)
    (per_boss_min_score : ℚ) (ordered : List ((ℕ × ℕ) × ℚ))
    (selected : List (ℕ × ℕ)) : List (ℕ × ℕ) :=
  (List.range nodes.length).foldl (fun sel idx =>
    if (nodes.getD idx default).source ≠ ("boss") then sel
    else if sel.any (fun e => decide (idx = e.1 ∨ idx = e.2)) then sel
    else
      match (ordered.filter (fun em =>
          decide (idx = em.1.1 ∨ idx = em.1.2))).insertionSort
          (fun a b => b.2 ≤ a.2) with
      | [] => sel
      | best :: _ =>
        if per_boss_min_score ≤ best.2 then
          try_add nodes enforce_planarity sel best.1
        else sel)
    selected

/-- Source `select_constraint_edges` (the `edge_scores` dict is embedded as
an association list in insertion order, each meta reduced to its score). -/
def select_constraint_edges (nodes : List Node)
    (edge_scores : List ((ℕ × ℕ) × ℚ)) (min_score : ℚ)
    (protected_edges : List (ℕ × ℕ)) (per_boss_min_score : ℚ)
    (fallback_top_n : ℤ) (enforce_planarity : Bool) : List (ℕ × ℕ) :=
  let protected_list := normalised_protected protected_edges
  let ordered := (edge_scores.filter
      (fun em => decide (em.1 ∉ protected_list))).insertionSort
      (fun a b => b.2 ≤ a.2)
  ((select_boss_pass nodes enforce_planarity per_boss_min_score ordered
    (select_fallback_pass nodes enforce_planarity fallback_top_n protected_list
      ordered
      (select_threshold_pass nodes enforce_planarity min_score ordered
        (protected_list.insertionSort edge_le)))).dedup).insertionSort edge_le

/-- The pairwise planarity condition: a shared endpoint index, or no
crossing. -/
def pair_non_crossing (nodes : List Node) (e1 e2 : ℕ × ℕ) : Prop :=
  (e1.1 = e2.1 ∨ e1.1 = e2.2 ∨ e1.2 = e2.1 ∨ e1.2 = e2.2) ∨
  segments_intersect (node_uv nodes e1.1) (node_uv nodes e1.2)
    (node_uv nodes e2.1) (node_uv nodes e2.2) = false

theorem segments_intersect_true_iff (p1 p2 p3 p4 : ℚ × ℚ) :
    segments_intersect p1 p2 p3 p4 = true ↔
      (¬(p1 = p3 ∨ p1 = p4 ∨ p2 = p3 ∨ p2 = p4) ∧
        ((orientation p1 p2 p3 ≠ orientation p1 p2 p4 ∧
          orientation p3 p4 p1 ≠ orientation p3 p4 p2) ∨
         (orientation p1 p2 p3 = 0 ∧ on_segment p1 p3 p2) ∨
         (orientation p1 p2 p4 = 0 ∧ on_segment p1 p4 p2) ∨
         (orientation p3 p4 p1 = 0 ∧ on_segment p3 p1 p4) ∨
         (orientation p3 p4 p2 = 0 ∧ on_segment p3 p2 p4))) := by
  simp only [segments_intersect]
  split_ifs with h1 h2 h3 h4 h5 h6 <;> simp_all

theorem segments_intersect_symm (p1 p2 p3 p4 : ℚ × ℚ) :
    segments_intersect p3 p4 p1 p2 = segments_intersect p1 p2 p3 p4 := by
  rw [Bool.eq_iff_iff, segments_intersect_true_iff, segments_intersect_true_iff]
  constructor
  · rintro ⟨hs, hr⟩
    refine ⟨fun hc => hs ?_, by tauto⟩
    rcases hc with h | h | h | h
    · exact Or.inl h.symm
    · exact Or.inr (Or.inr (Or.inl h.symm))
    · exact Or.inr (Or.inl h.symm)
    · exact Or.inr (Or.inr (Or.inr h.symm))
  · rintro ⟨hs, hr⟩
    refine ⟨fun hc => hs ?_, by tauto⟩
    rcases hc with h | h | h | h
    · exact Or.inl h.symm
    · exact Or.inr (Or.inr (Or.inl h.symm))
    · exact Or.inr (Or.inl h.symm)
    · exact Or.inr (Or.inr (Or.inr h.symm))

theorem pair_non_crossing_symm (nodes : List Node) (e1 e2 : ℕ × ℕ)
    (h : pair_non_crossing nodes e1 e2) : pair_non_crossing nodes e2 e1 := by
  rcases h with h | h
  · left
    tauto
  · right
    rw [segments_intersect_symm]
    exact h

/-- The planarity invariant maintained by the greedy selection: any pair of
selected edges not both protected satisfies the planarity condition
(protected edges are admitted without crossing checks, so only pairs with a
non-protected member are covered). -/
def planar_inv (nodes : List Node) (prot : List (ℕ × ℕ))
    (sel : List (ℕ × ℕ)) : Prop :=
  ∀ e1 ∈ sel, ∀ e2 ∈ sel, e1 ∉ prot ∨ e2 ∉ prot →
    pair_non_crossing nodes e1 e2

theorem try_add_preserves (nodes : List Node) (prot : List (ℕ × ℕ))
    (sel : List (ℕ × ℕ)) (edge : ℕ × ℕ) (h : planar_inv nodes prot sel) :
    planar_inv nodes prot (try_add nodes true sel edge) := by
  unfold try_add
  split
  · exact h
  split
  · exact h
  rename_i hmem hcross
  have hcf : edge_crosses_selected nodes edge sel = false := by
    rcases Bool.eq_false_or_eq_true (edge_crosses_selected nodes edge sel)
      with hc | hc
    · exact absurd ⟨rfl, hc⟩ hcross
    · exact hc
  have hkl : ∀ kl ∈ sel, pair_non_crossing nodes edge kl := by
    intro kl hklm
    unfold edge_crosses_selected at hcf
    rw [List.any_eq_false] at hcf
    have := hcf kl hklm
    by_cases hsh : edge.1 = kl.1 ∨ edge.1 = kl.2 ∨ edge.2 = kl.1 ∨ edge.2 = kl.2
    · exact Or.inl hsh
    · rw [if_neg hsh] at this
      right
      rcases Bool.eq_false_or_eq_true (segments_intersect
        (node_uv nodes edge.1) (node_uv nodes edge.2)
        (node_uv nodes kl.1) (node_uv nodes kl.2)) with hc | hc
      · exact absurd hc this
      · exact hc
  intro e1 h1 e2 h2 hp
  rcases List.mem_append.mp h1 with h1' | h1' <;>
    rcases List.mem_append.mp h2 with h2' | h2'
  · exact h e1 h1' e2 h2' hp
  · rw [List.mem_singleton] at h2'
    subst h2'
    exact pair_non_crossing_symm nodes e2 e1 (hkl e1 h1')
  · rw [List.mem_singleton] at h1'
    subst h1'
    exact hkl e2 h2'
  · rw [List.mem_singleton] at h1' h2'
    subst h1'
    subst h2'
    exact Or.inl (Or.inl rfl)

theorem foldl_preserves {α β : Type} (P : α → Prop) (f : α → β → α)
    (hf : ∀ a b, P a → P (f a b)) :
    ∀ (l : List β) (a : α), P a → P (l.foldl f a) := by
  intro l
  induction l with
  | nil =>
    intro a h
    exact h
  | cons x xs ih =>
    intro a h
    exact ih (f a x) (hf a x h)

theorem select_threshold_pass_preserves (nodes : List Node)
    (prot : List (ℕ × ℕ)) (min_score : ℚ) (ordered : List ((ℕ × ℕ) × ℚ))
    (sel : List (ℕ × ℕ)) (h : planar_inv nodes prot sel) :
    planar_inv nodes prot
      (select_threshold_pass nodes true min_score ordered sel) := by
  unfold select_threshold_pass
  refine foldl_preserves _ _ ?_ ordered sel h
  intro a b ha
  split
  · exact try_add_preserves nodes prot a b.1 ha
  · exact ha

theorem select_fallback_pass_preserves (nodes : List Node)
    (prot : List (ℕ × ℕ)) (fallback_top_n : ℤ)
    (protected_list : List (ℕ × ℕ)) (ordered : List ((ℕ × ℕ) × ℚ))
    (sel : List (ℕ × ℕ)) (h : planar_inv nodes prot sel) :
    planar_inv nodes prot (select_fallback_pass nodes true fallback_top_n
      protected_list ordered sel) := by
  unfold select_fallback_pass
  split
  · refine foldl_preserves _ _ ?_ _ sel h
    intro a b ha
    exact try_add_preserves nodes prot a b.1 ha
  · exact h

theorem select_boss_pass_preserves (nodes : List Node)
    (prot : List (ℕ × ℕ)) (per_boss_min_score : ℚ)
    (ordered : List ((ℕ × ℕ) × ℚ)) (sel : List (ℕ × ℕ))
    (h : planar_inv nodes prot sel) :
    planar_inv nodes prot (select_boss_pass nodes true per_boss_min_score
      ordered sel) := by
  unfold select_boss_pass
  refine foldl_preserves _ _ ?_ _ sel h
  intro a b ha
  split
  · exact ha
  split
  · exact ha
  split
  · exact ha
  · split
    · exact try_add_preserves nodes prot a _ ha
    · exact ha

/-- C4: with planarity enforcement enabled, any two edges returned by
`select_constraint_edges` of which at least one was admitted by the selector
itself (score threshold, top-N fallback or per-boss coverage pass — i.e. is
not a protected boundary edge), and which share no endpoint index, do not
cross in the node coordinate geometry. -/
theorem c4_planarity_invariant (nodes : List Node)
    (edge_scores : List ((ℕ × ℕ) × ℚ)) (min_score : ℚ)
    (protected_edges : List (ℕ × ℕ)) (per_boss_min_score : ℚ)
    (fallback_top_n : ℤ) (e1 e2 : ℕ × ℕ)
    (h1 : e1 ∈ select_constraint_edges nodes edge_scores min_score
      protected_edges per_boss_min_score fallback_top_n true)
    (h2 : e2 ∈ select_constraint_edges nodes edge_scores min_score
      protected_edges per_boss_min_score fallback_top_n true)
    (hp : e1 ∉ normalised_protected protected_edges ∨
      e2 ∉ normalised_protected protected_edges)
    (hsh : ¬(e1.1 = e2.1 ∨ e1.1 = e2.2 ∨ e1.2 = e2.1 ∨ e1.2 = e2.2)) :
    segments_intersect (node_uv nodes e1.1) (node_uv nodes e1.2)
      (node_uv nodes e2.1) (node_uv nodes e2.2) = false := by
  have h0 : planar_inv nodes (normalised_protected protected_edges)
      ((normalised_protected protected_edges).insertionSort edge_le) := by
    intro a ha b hb hab
    exfalso
    rw [(List.perm_insertionSort edge_le _).mem_iff] at ha hb
    rcases hab with hab | hab
    · exact hab ha
    · exact hab hb
  unfold select_constraint_edges at h1 h2
  rw [(List.perm_insertionSort edge_le _).mem_iff, List.mem_dedup] at h1 h2
  have hcross := (select_boss_pass_preserves nodes _ per_boss_min_score _ _
    (select_fallback_pass_preserves nodes _ fallback_top_n _ _ _
      (select_threshold_pass_preserves nodes _ min_score _ _ h0)))
    e1 h1 e2 h2 hp
  rcases hcross with hc | hc
  · exact absurd hc hsh
  · exact hc

/-- Concrete node set for the C4 witness: the four unit-square corners. -/
def c4_nodes : List Node :=
  [⟨("n0"), (0, 0), (0, 0), ("corner"), none⟩,
   ⟨("n1"), (1, 0), (0, 0), ("corner"), none⟩,
   ⟨("n2"), (0, 1), (0, 0), ("corner"), none⟩,
   ⟨("n3"), (1, 1), (0, 0), ("corner"), none⟩]

/-- Concrete scored candidate edges for the C4 witness: the bottom and top
sides of the square. -/
def c4_scores : List ((ℕ × ℕ) × ℚ) :=
  [((0, 1), 9 / 10), ((2, 3), 4 / 5)]

/-- Witness for C4: both scored edges are admitted at a concrete input, they
are not protected and share no endpoint, and they do not cross. -/
theorem c4_planarity_invariant_witness :
    ((0, 1) : ℕ × ℕ) ∈ select_constraint_edges c4_nodes c4_scores (1 / 3) []
      (1 / 5) 8 true ∧
    ((2, 3) : ℕ × ℕ) ∈ select_constraint_edges c4_nodes c4_scores (1 / 3) []
      (1 / 5) 8 true ∧
    ((0, 1) : ℕ × ℕ) ∉ normalised_protected [] ∧
    segments_intersect (node_uv c4_nodes 0) (node_uv c4_nodes 1)
      (node_uv c4_nodes 2) (node_uv c4_nodes 3) = false :=
  ⟨by with_unfolding_all decide, by with_unfolding_all decide,
   by with_unfolding_all decide,
   c4_planarity_invariant c4_nodes c4_scores (1 / 3) [] (1 / 5) 8 (0, 1) (2, 3)
     (by with_unfolding_all decide) (by with_unfolding_all decide)
     (Or.inl (by with_unfolding_all decide)) (by decide)⟩

-- ### `reconstruction_rib_guidance.py`: edge pruning (C5) --------------------

/-- Python `set.add` on an insertion-ordered set of edges. -/
def set_add (s : List (ℕ × ℕ)) (e : ℕ × ℕ) : List (ℕ × ℕ) :=
  if e ∈ s then s else s ++ [e]

/-- `max(0.0, min(1.0, x))`. -/
def clamp01 (x : ℚ) : ℚ := max 0 (min 1 x)

/-- Source `score_candidate_edges`. The rib-evidence scoring
(`score_edge_support`, built on OpenCV rasters and distance transforms) and
the family-prior lookup are external raster computations; they are abstracted
as the function parameters `support` and `fprior` of the two endpoint uv
coordinates, exactly as they enter the blended score. Duplicate normalised
edges overwrite their dict entry in place, as in Python. -/
def score_candidate_edges (support fprior : (ℚ × ℚ) → (ℚ × ℚ) → ℚ)
    (family_prior_weight : ℚ) (nodes : List Node)
    (candidate_edges : List (ℕ × ℕ)) : List ((ℕ × ℕ) × ℚ) :=
  let pw := clamp01 family_prior_weight
  candidate_edges.foldl (fun scores raw =>
    let edge := sortPair raw
    if edge.1 = edge.2 ∨ nodes.length ≤ edge.1 ∨ nodes.length ≤ edge.2 then
      scores
    else
      let p1 := node_uv nodes edge.1
      let p2 := node_uv nodes edge.2
      let entry := (edge, clamp01 ((1 - pw) * support p1 p2 + pw * fprior p1 p2))
      if scores.any (fun s => decide (s.1 = edge)) then
        scores.map (fun s => if s.1 = edge then entry else s)
      else scores ++ [entry]) []

/-- `np.quantile(l, q)` with the default linear interpolation method. -/
def np_quantile (l : List ℚ) (q : ℚ) : ℚ :=
  let s := l.insertionSort (· ≤ ·)
  match s with
  | [] => 0
  | _ =>
    let h : ℚ := ((s.length : ℚ) - 1) * q
    let lo := ⌊h⌋
    let frac := h - (lo : ℚ)
    let slo := s.getD lo.toNat 0
    let shi := s.getD (lo.toNat + 1) slo
    slo + frac * (shi - slo)

/-- One iteration of the boss-coverage loop of `filter_reconstructed_edges`:
an uncovered boss node receives its best-scored incident scored edge, with no
score threshold. -/
def boss_step (scored : List ((ℕ × ℕ) × ℚ)) (nodes : List Node)
    (kept : List (ℕ × ℕ)) (idx : ℕ) : List (ℕ × ℕ) :=
  if (nodes.getD idx default).source ≠ ("boss") then kept
  else if kept.any (fun e => decide (idx = e.1 ∨ idx = e.2)) then kept
  else
    match (scored.filter (fun em =>
        decide (idx = em.1.1 ∨ idx = em.1.2))).insertionSort
        (fun a b => b.2 ≤ a.2) with
    | [] => kept
    | best :: _ => set_add kept best.1

/-- Source `filter_reconstructed_edges` (`rib_union_mask is None or size 0`
collapsed into `mask_present = false`). -/
def filter_reconstructed_edges (support fprior : (ℚ × ℚ) → (ℚ × ℚ) → ℚ)
    (mask_present : Bool) (nodes : List Node) (edges : List (ℕ × ℕ))
    (constraint_edges : List (ℕ × ℕ)) (min_non_constraint_score : ℚ) :
    List (ℕ × ℕ) × ℚ :=
  if mask_present = false then
    ((((edges.filter (fun ab => decide (ab.1 ≠ ab.2))).map
      sortPair).dedup).insertionSort edge_le, 0)
  else
    let scored := score_candidate_edges support fprior 0 nodes edges
    let constraint_set := normalised_protected constraint_edges
    let non_constraint_scores := (scored.filter
      (fun em => decide (em.1 ∉ constraint_set))).map Prod.snd
    let adaptive_threshold := if non_constraint_scores ≠ [] then
        max min_non_constraint_score (np_quantile non_constraint_scores (35 / 100))
      else min_non_constraint_score
    let kept0 := edges.foldl (fun kept raw =>
      let edge := sortPair raw
      if edge ∈ constraint_set then set_add kept edge
      else if adaptive_threshold ≤ (match scored.find?
          (fun s => decide (s.1 = edge)) with
        | some s => s.2
        | none => 0) then set_add kept edge
      else kept) []
    let kept1 := (List.range nodes.length).foldl (boss_step scored nodes) kept0
    ((kept1.dedup).insertionSort edge_le, adaptive_threshold)

theorem set_add_mem_self (s : List (ℕ × ℕ)) (e : ℕ × ℕ) : e ∈ set_add s e := by
  unfold set_add
  split
  · assumption
  · exact List.mem_append.mpr (Or.inr (List.mem_singleton.mpr rfl))

theorem set_add_mem_of (s : List (ℕ × ℕ)) (e x : ℕ × ℕ) (h : x ∈ s) :
    x ∈ set_add s e := by
  unfold set_add
  split
  · exact h
  · exact List.mem_append.mpr (Or.inl h)

theorem boss_step_mono (scored : List ((ℕ × ℕ) × ℚ)) (nodes : List Node)
    (kept : List (ℕ × ℕ)) (i : ℕ) (x : ℕ × ℕ) (h : x ∈ kept) :
    x ∈ boss_step scored nodes kept i := by
  unfold boss_step
  split
  · exact h
  split
  · exact h
  split
  · exact h
  · exact set_add_mem_of _ _ _ h

theorem insertionSort_head_mem {α : Type} (r : α → α → Prop) [DecidableRel r]
    (l : List α) (best : α) (rest : List α)
    (h : l.insertionSort r = best :: rest) : best ∈ l := by
  have hm : best ∈ l.insertionSort r := by
    rw [h]
    exact List.mem_cons_self best rest
  exact (List.perm_insertionSort r l).subset hm

theorem insertionSort_ne_nil_of_mem {α : Type} (r : α → α → Prop)
    [DecidableRel r] (l : List α) (x : α) (hx : x ∈ l) :
    l.insertionSort r ≠ [] := by
  intro h
  have hm : x ∈ l.insertionSort r :=
    (List.perm_insertionSort r l).symm.subset hx
  rw [h] at hm
  exact List.not_mem_nil x hm

theorem boss_fold_covers (scored : List ((ℕ × ℕ) × ℚ)) (nodes : List Node)
    (idx : ℕ) (hboss : (nodes.getD idx default).source = ("boss"))
    (hinc : ∃ em ∈ scored, idx = em.1.1 ∨ idx = em.1.2) :
    ∀ (ixs : List ℕ), idx ∈ ixs → ∀ kept : List (ℕ × ℕ),
      ∃ e ∈ ixs.foldl (boss_step scored nodes) kept, idx = e.1 ∨ idx = e.2 := by
  intro ixs
  induction ixs with
  | nil =>
    intro h
    exact absurd h (List.not_mem_nil idx)
  | cons i rest ih =>
    intro hmem kept
    rw [List.foldl_cons]
    by_cases hi : i = idx
    · subst hi
      have hcov : ∃ e ∈ boss_step scored nodes kept i, i = e.1 ∨ i = e.2 := by
        unfold boss_step
        rw [if_neg (not_not_intro hboss)]
        by_cases hany : kept.any (fun e => decide (i = e.1 ∨ i = e.2)) = true
        · rw [if_pos hany]
          rw [List.any_eq_true] at hany
          obtain ⟨e, he, hpe⟩ := hany
          exact ⟨e, he, by simpa using hpe⟩
        · rw [if_neg hany]
          obtain ⟨em, hem, hpe⟩ := hinc
          have hf : em ∈ scored.filter (fun em =>
              decide (i = em.1.1 ∨ i = em.1.2)) :=
            List.mem_filter.mpr ⟨hem, by simpa using hpe⟩
          split
          · rename_i hsort
            exact absurd hsort (insertionSort_ne_nil_of_mem _ _ em hf)
          · rename_i best rest2 hsort
            have hbmem := insertionSort_head_mem _ _ best rest2 hsort
            have hbp := (List.mem_filter.mp hbmem).2
            exact ⟨best.1, set_add_mem_self kept best.1, by simpa using hbp⟩
      obtain ⟨e, he, hpe⟩ := hcov
      refine ⟨e, ?_, hpe⟩
      exact foldl_preserves (fun k => e ∈ k) (boss_step scored nodes)
        (fun a b ha => boss_step_mono scored nodes a b e ha) rest _ he
    · have hrest : idx ∈ rest := by
        rcases List.mem_cons.mp hmem with h | h
        · exact absurd h.symm hi
        · exact h
      exact ih hrest (boss_step scored nodes kept i)

/-- C5 (amended): after pruning with a rib mask present, every boss-sourced
node that has at least one incident edge in the scored candidate map keeps
degree at least one — the per-boss coverage pass re-adds its best incident
edge with no score threshold. (A boss with no incident scored candidate at
all stays isolated, which the original claim overlooked.) -/
theorem c5_boss_coverage (support fprior : (ℚ × ℚ) → (ℚ × ℚ) → ℚ)
    (nodes : List Node) (edges : List (ℕ × ℕ))
    (constraint_edges : List (ℕ × ℕ)) (ms : ℚ) (idx : ℕ)
    (hidx : idx < nodes.length)
    (hboss : (nodes.getD idx default).source = ("boss"))
    (hinc : ∃ em ∈ score_candidate_edges support fprior 0 nodes edges,
      idx = em.1.1 ∨ idx = em.1.2) :
    ∃ e ∈ (filter_reconstructed_edges support fprior true nodes edges
      constraint_edges ms).1, idx = e.1 ∨ idx = e.2 := by
  unfold filter_reconstructed_edges
  rw [if_neg (by simp)]
  obtain ⟨e, he, hpe⟩ := boss_fold_covers
    (score_candidate_edges support fprior 0 nodes edges) nodes idx hboss hinc
    (List.range nodes.length) (List.mem_range.mpr hidx) _
  refine ⟨e, ?_, hpe⟩
  rw [(List.perm_insertionSort edge_le _).mem_iff, List.mem_dedup]
  exact he

/-- The isolated boss node of the C5 counterexample. -/
def c5_boss_node : Node := ⟨("b0"), (1 / 2, 1 / 2), (0, 0), ("boss"), some ("b0")⟩

/-- C5 counterexample: a boss-sourced node with no incident candidate edge is
left with degree zero by the pruning (the output edge list is empty), while
the claim promises degree at least one for every boss node. -/
theorem c5_boss_coverage_counterexample :
    (filter_reconstructed_edges (fun _ _ => 0) (fun _ _ => 0) true
      [c5_boss_node] [] [] (18 / 100)).1 = [] ∧
    c5_boss_node.source = ("boss") := by
  constructor
  · with_unfolding_all decide
  · rfl

/-- The two-node graph of the C5 witness. -/
def c5_witness_nodes : List Node :=
  [c5_boss_node, ⟨("n1"), (1, 1), (0, 0), ("corner"), none⟩]

/-- Witness for C5: a boss with one incident (weakly scored) candidate edge
keeps an incident edge after pruning. -/
theorem c5_boss_coverage_witness :
    ∃ e ∈ (filter_reconstructed_edges (fun _ _ => 0) (fun _ _ => 0) true
      c5_witness_nodes [(0, 1)] [] (18 / 100)).1, 0 = e.1 ∨ 0 = e.2 :=
  c5_boss_coverage (fun _ _ => 0) (fun _ _ => 0) c5_witness_nodes [(0, 1)] []
    (18 / 100) 0 (by with_unfolding_all decide)
    (by with_unfolding_all decide) (by with_unfolding_all decide)

-- ### `reconstruction_graph.py` and the no-mask reconstruction path (C3) -----

/-- Source `_rounded_key` (4 digits). -/
def rounded_key (uv : ℚ × ℚ) : ℚ × ℚ := (roundTo 4 uv.1, roundTo 4 uv.2)

/-- The `xy` pixel coordinates stored on a node:
`(int(round(px)), int(round(py)))` of `unit_to_image(uv, roi)`. -/
noncomputable def node_xy (roi : RoiParams) (uv : ℚ × ℚ) : ℤ × ℤ :=
  (pyRound (unit_to_image (((uv.1 : ℚ) : ℝ), ((uv.2 : ℚ) : ℝ)) roi).1,
   pyRound (unit_to_image (((uv.1 : ℚ) : ℝ), ((uv.2 : ℚ) : ℝ)) roi).2)

/-- Source `add_node` inner helper of `collect_nodes`: nodes with an already
seen rounded uv key are dropped (the `seen` dict is kept as its key list; the
stored index values are never read). -/
noncomputable def add_node (roi : RoiParams) (st : List Node × List (ℚ × ℚ))
    (node_id : String) (uv : ℚ × ℚ) (source : String)
    (boss_id : Option String) : List Node × List (ℚ × ℚ) :=
  if rounded_key uv ∈ st.2 then st
  else (st.1 ++ [⟨node_id, uv, node_xy roi uv, source, boss_id⟩],
    st.2 ++ [rounded_key uv])

/-- The corner-anchor rows of `collect_nodes`, in dict insertion order. -/
def corner_anchor_rows : List (String × (ℚ × ℚ)) :=
  [(("roi_corner_00"), (0, 0)), (("roi_corner_10"), (1, 0)),
   (("roi_corner_11"), (1, 1)), (("roi_corner_01"), (0, 1))]

/-- The half-anchor rows of `collect_nodes`, in dict insertion order. -/
def half_anchor_rows : List (String × (ℚ × ℚ)) :=
  [(("roi_mid_top"), (1 / 2, 0)), (("roi_mid_right"), (1, 1 / 2)),
   (("roi_mid_bottom"), (1 / 2, 1)), (("roi_mid_left"), (0, 1 / 2)),
   (("roi_centre"), (1 / 2, 1 / 2))]

/-- Source `collect_nodes`: bosses first, then optional corner anchors, then
optional half anchors. -/
noncomputable def collect_nodes (roi : RoiParams)
    (boss_rows : List (String × (ℚ × ℚ)))
    (include_corner_anchors include_half_anchors : Bool) : List Node :=
  let st0 := boss_rows.foldl (fun st row =>
    add_node roi st row.1 row.2 ("boss") (some row.1)) ([], [])
  let st1 := if include_corner_anchors then
      corner_anchor_rows.foldl (fun st row =>
        add_node roi st row.1 row.2 ("anchor") none) st0
    else st0
  let st2 := if include_half_anchors then
      half_anchor_rows.foldl (fun st row =>
        add_node roi st row.1 row.2 ("anchor") none) st1
    else st1
  st2.1

/-- Per-node candidate entry of `_build_segment_edges_single`: the projection
parameter `t` and the index, when the node projects onto the segment within
tolerance (`math.hypot(...) <= tol` is embedded as the squared comparison). -/
def seg_node_entry (p1 p2 : ℚ × ℚ) (tol : ℚ) (node : Node) (idx : ℕ) :
    Option (ℚ × ℕ) :=
  if node.source ≠ ("boss") ∧ node.source ≠ ("anchor") then none
  else
    let dx := p2.1 - p1.1
    let dy := p2.2 - p1.2
    let len2 := dx * dx + dy * dy
    let vx := node.uv.1 - p1.1
    let vy := node.uv.2 - p1.2
    let t := (vx * dx + vy * dy) / len2
    if t < -(1 / 1000000) ∨ 1 + 1 / 1000000 < t then none
    else
      let proj_x := p1.1 * (1 - t) + p2.1 * t
      let proj_y := p1.2 * (1 - t) + p2.2 * t
      if (node.uv.1 - proj_x) ^ 2 + (node.uv.2 - proj_y) ^ 2 ≤ tol ^ 2 then
        some (t, idx)
      else none

/-- Source `_build_segment_edges_single`: chain the on-line nodes in
projection order. -/
def build_segment_edges_single (nodes : List Node) (p1 p2 : ℚ × ℚ)
    (tol : ℚ) : List (ℕ × ℕ) :=
  let dx := p2.1 - p1.1
  let dy := p2.2 - p1.2
  let len2 := dx * dx + dy * dy
  if len2 ≤ 1 / 1000000000000 then []
  else
    let on_line := (List.range nodes.length).filterMap
      (fun idx => seg_node_entry p1 p2 tol (nodes.getD idx default) idx)
    if on_line.length < 2 then []
    else
      let sorted := on_line.insertionSort (fun a b => a.1 ≤ b.1)
      let ordered := sorted.map Prod.snd
      (ordered.zip ordered.tail).filterMap
        (fun ab => if ab.1 ≠ ab.2 then some (sortPair ab) else none)

/-- Source `build_segment_edges`: union over all guide segments, sorted. -/
def build_segment_edges (nodes : List Node)
    (segments : List ((ℚ × ℚ) × (ℚ × ℚ))) (tol : ℚ) : List (ℕ × ℕ) :=
  ((segments.foldl (fun es s =>
    es ++ build_segment_edges_single nodes s.1 s.2 tol) []).dedup).insertionSort
    edge_le

/-- The fixed ROI boundary guide segments of `_run_reconstruction_sync`. -/
def boundary_segments : List ((ℚ × ℚ) × (ℚ × ℚ)) :=
  [((0, 0), (1, 0)), ((1, 0), (1, 1)), ((1, 1), (0, 1)), ((0, 1), (0, 0))]

/-- Source `build_cdt_edges`. The external `triangle` library call is
abstracted as the total function parameter `tri`, returning the Steiner
nodes it appends and the triangle edges it yields; the function unions them
with the constraint edges and sorts, as the source does. -/
def build_cdt_edges
    (tri : List Node → List (ℕ × ℕ) → List Node × List (ℕ × ℕ))
    (nodes : List Node) (constraint_edges : List (ℕ × ℕ)) :
    List Node × List (ℕ × ℕ) :=
  if nodes.length < 2 then (nodes, constraint_edges)
  else
    let t := tri nodes constraint_edges
    (nodes ++ t.1, ((constraint_edges ++ t.2).dedup).insertionSort edge_le)

/-- The reported reconstruction summary fields relevant to the no-mask path
(the remaining payload fields echo inputs or file paths). -/
structure ReconResult where
  nodeCount : ℕ
  edgeCount : ℕ
  constraintEdgeCount : ℕ
  bossCount : ℕ
  enabledConstraintFamilies : List String
  fallbackApplied : Bool
deriving DecidableEq

/-- The no-rib-mask path of `_run_reconstruction_sync` with the default
params (corner anchors on, half anchors off, crossTolerance 0.02): raise when
no bosses exist, otherwise fall back to boundary-only constraints with no
enabled families. -/
noncomputable def run_reconstruction_no_mask
    (tri : List Node → List (ℕ × ℕ) → List Node × List (ℕ × ℕ))
    (roi : RoiParams) (boss_rows : List (String × (ℚ × ℚ))) :
    Except String ReconResult :=
  if boss_rows = [] then .error ("No bosses available for reconstruction.")
  else
    let nodes := collect_nodes roi boss_rows true false
    let boundary_edges := build_segment_edges nodes boundary_segments (2 / 100)
    let constraint_edges := boundary_edges
    let ne := build_cdt_edges tri nodes constraint_edges
    .ok ⟨ne.1.length, ne.2.length, constraint_edges.length,
      boss_rows.length, [], true⟩

/-- The four corner-anchor nodes appended by `collect_nodes`. -/
noncomputable def corner_nodes (roi : RoiParams) : List Node :=
  [⟨("roi_corner_00"), (0, 0), node_xy roi (0, 0), ("anchor"), none⟩,
   ⟨("roi_corner_10"), (1, 0), node_xy roi (1, 0), ("anchor"), none⟩,
   ⟨("roi_corner_11"), (1, 1), node_xy roi (1, 1), ("anchor"), none⟩,
   ⟨("roi_corner_01"), (0, 1), node_xy roi (0, 1), ("anchor"), none⟩]

theorem add_node_new (roi : RoiParams) (st : List Node × List (ℚ × ℚ))
    (node_id : String) (uv : ℚ × ℚ) (source : String) (boss_id : Option String)
    (h : rounded_key uv ∉ st.2) :
    add_node roi st node_id uv source boss_id =
      (st.1 ++ [⟨node_id, uv, node_xy roi uv, source, boss_id⟩],
        st.2 ++ [rounded_key uv]) := by
  unfold add_node
  rw [if_neg h]

theorem roundTo4_zero : roundTo 4 (0 : ℚ) = 0 := by with_unfolding_all decide

theorem roundTo4_one : roundTo 4 (1 : ℚ) = 1 := by with_unfolding_all decide

theorem roundTo4_interior {q : ℚ} (h1 : 1 / 50 < q) (h2 : q < 49 / 50) :
    roundTo 4 q ≠ 0 ∧ roundTo 4 q ≠ 1 := by
  have hb := roundTo_sub_le 4 q
  have hb' : |roundTo 4 q - q| ≤ 1 / 20000 := by
    calc |roundTo 4 q - q| ≤ 1 / (2 * 10 ^ 4) := hb
      _ = 1 / 20000 := by norm_num
  rw [abs_sub_le_iff] at hb'
  constructor
  · intro hc
    rw [hc] at hb'
    have := hb'.2
    linarith
  · intro hc
    rw [hc] at hb'
    have := hb'.1
    linarith

theorem boss_fold_mem (roi : RoiParams) :
    ∀ (rows : List (String × (ℚ × ℚ))) (st : List Node × List (ℚ × ℚ)),
      (∀ nd ∈ (rows.foldl (fun st row =>
          add_node roi st row.1 row.2 ("boss") (some row.1)) st).1,
        nd ∈ st.1 ∨ (nd.source = ("boss") ∧ ∃ r ∈ rows, nd.uv = r.2)) ∧
      (∀ k ∈ (rows.foldl (fun st row =>
          add_node roi st row.1 row.2 ("boss") (some row.1)) st).2,
        k ∈ st.2 ∨ ∃ r ∈ rows, k = rounded_key r.2) := by
  intro rows
  induction rows with
  | nil =>
    intro st
    exact ⟨fun nd h => Or.inl h, fun k h => Or.inl h⟩
  | cons row rest ih =>
    intro st
    simp only [List.foldl_cons]
    constructor
    · intro nd hnd
      rcases (ih (add_node roi st row.1 row.2 ("boss") (some row.1))).1 nd hnd
        with h | ⟨hs, r, hr, huv⟩
      · unfold add_node at h
        split at h
        · exact Or.inl h
        · rcases List.mem_append.mp h with h | h
          · exact Or.inl h
          · rw [List.mem_singleton] at h
            subst h
            exact Or.inr ⟨rfl, row, List.mem_cons_self row rest, rfl⟩
      · exact Or.inr ⟨hs, r, List.mem_cons_of_mem row hr, huv⟩
    · intro k hk
      rcases (ih (add_node roi st row.1 row.2 ("boss") (some row.1))).2 k hk
        with h | ⟨r, hr, hkey⟩
      · unfold add_node at h
        split at h
        · exact Or.inl h
        · rcases List.mem_append.mp h with h | h
          · exact Or.inl h
          · rw [List.mem_singleton] at h
            subst h
            exact Or.inr ⟨row, List.mem_cons_self row rest, rfl⟩
      · exact Or.inr ⟨r, List.mem_cons_of_mem row hr, hkey⟩

theorem corner_fold_eq (roi : RoiParams) (st : List Node × List (ℚ × ℚ))
    (hbk : ∀ k ∈ st.2, k.1 ≠ 0 ∧ k.1 ≠ 1) :
    corner_anchor_rows.foldl (fun s row =>
        add_node roi s row.1 row.2 ("anchor") none) st =
      (st.1 ++ corner_nodes roi,
        st.2 ++ [(0, 0), (1, 0), (1, 1), (0, 1)]) := by
  have hk00 : rounded_key ((0 : ℚ), (0 : ℚ)) = (0, 0) := by
    with_unfolding_all decide
  have hk10 : rounded_key ((1 : ℚ), (0 : ℚ)) = (1, 0) := by
    with_unfolding_all decide
  have hk11 : rounded_key ((1 : ℚ), (1 : ℚ)) = (1, 1) := by
    with_unfolding_all decide
  have hk01 : rounded_key ((0 : ℚ), (1 : ℚ)) = (0, 1) := by
    with_unfolding_all decide
  have h1 : rounded_key ((0 : ℚ), (0 : ℚ)) ∉ st.2 := by
    rw [hk00]
    intro hmem
    exact (hbk _ hmem).1 rfl
  simp only [corner_anchor_rows, List.foldl_cons, List.foldl_nil]
  rw [add_node_new roi st _ _ _ _ h1, hk00]
  have h2 : rounded_key ((1 : ℚ), (0 : ℚ)) ∉
      (st.1 ++ [⟨("roi_corner_00"), ((0 : ℚ), (0 : ℚ)), node_xy roi (0, 0),
        ("anchor"), none⟩], st.2 ++ [((0 : ℚ), (0 : ℚ))]).2 := by
    rw [hk10]
    intro hmem
    rcases List.mem_append.mp hmem with h | h
    · exact (hbk _ h).2 rfl
    · rw [List.mem_singleton] at h
      exact absurd h (by with_unfolding_all decide)
  rw [add_node_new roi _ _ _ _ _ h2, hk10]
  have h3 : rounded_key ((1 : ℚ), (1 : ℚ)) ∉
      ((st.1 ++ [⟨("roi_corner_00"), ((0 : ℚ), (0 : ℚ)), node_xy roi (0, 0),
          ("anchor"), none⟩]) ++ [⟨("roi_corner_10"), ((1 : ℚ), (0 : ℚ)),
          node_xy roi (1, 0), ("anchor"), none⟩],
        (st.2 ++ [((0 : ℚ), (0 : ℚ))]) ++ [((1 : ℚ), (0 : ℚ))]).2 := by
    rw [hk11]
    intro hmem
    rcases List.mem_append.mp hmem with h | h
    · rcases List.mem_append.mp h with h | h
      · exact (hbk _ h).2 rfl
      · rw [List.mem_singleton] at h
        exact absurd h (by with_unfolding_all decide)
    · rw [List.mem_singleton] at h
      exact absurd h (by with_unfolding_all decide)
  rw [add_node_new roi _ _ _ _ _ h3, hk11]
  have h4 : rounded_key ((0 : ℚ), (1 : ℚ)) ∉
      (((st.1 ++ [⟨("roi_corner_00"), ((0 : ℚ), (0 : ℚ)), node_xy roi (0, 0),
          ("anchor"), none⟩]) ++ [⟨("roi_corner_10"), ((1 : ℚ), (0 : ℚ)),
          node_xy roi (1, 0), ("anchor"), none⟩]) ++
          [⟨("roi_corner_11"), ((1 : ℚ), (1 : ℚ)), node_xy roi (1, 1),
          ("anchor"), none⟩],
        ((st.2 ++ [((0 : ℚ), (0 : ℚ))]) ++ [((1 : ℚ), (0 : ℚ))]) ++
          [((1 : ℚ), (1 : ℚ))]).2 := by
    rw [hk01]
    intro hmem
    rcases List.mem_append.mp hmem with h | h
    · rcases List.mem_append.mp h with h | h
      · rcases List.mem_append.mp h with h | h
        · exact (hbk _ h).1 rfl
        · rw [List.mem_singleton] at h
          exact absurd h (by with_unfolding_all decide)
      · rw [List.mem_singleton] at h
        exact absurd h (by with_unfolding_all decide)
    · rw [List.mem_singleton] at h
      exact absurd h (by with_unfolding_all decide)
  rw [add_node_new roi _ _ _ _ _ h4, hk01]
  unfold corner_nodes
  simp [List.append_assoc]

theorem collect_nodes_interior (roi : RoiParams)
    (boss_rows : List (String × (ℚ × ℚ)))
    (hint : ∀ r ∈ boss_rows, 1 / 50 < r.2.1 ∧ r.2.1 < 49 / 50 ∧
      1 / 50 < r.2.2 ∧ r.2.2 < 49 / 50) :
    ∃ bn : List Node,
      collect_nodes roi boss_rows true false = bn ++ corner_nodes roi ∧
      ∀ nd ∈ bn, nd.source = ("boss") ∧ 1 / 50 < nd.uv.1 ∧
        nd.uv.1 < 49 / 50 ∧ 1 / 50 < nd.uv.2 ∧ nd.uv.2 < 49 / 50 := by
  obtain ⟨hmem, hkey⟩ := boss_fold_mem roi boss_rows (([], []))
  simp only [collect_nodes]
  simp only [if_true, Bool.false_eq_true, if_false]
  have hbk : ∀ k ∈ (boss_rows.foldl (fun st row =>
      add_node roi st row.1 row.2 ("boss") (some row.1)) (([], []))).2,
      k.1 ≠ 0 ∧ k.1 ≠ 1 := by
    intro k hk
    rcases hkey k hk with h | ⟨r, hr, hkeq⟩
    · exact absurd h (List.not_mem_nil k)
    · obtain ⟨ha, hb, hc, hd⟩ := hint r hr
      subst hkeq
      exact roundTo4_interior ha hb
  rw [corner_fold_eq roi _ hbk]
  refine ⟨(boss_rows.foldl (fun st row =>
    add_node roi st row.1 row.2 ("boss") (some row.1)) (([], []))).1, rfl, ?_⟩
  intro nd hnd
  rcases hmem nd hnd with h | ⟨hs, r, hr, huv⟩
  · exact absurd h (List.not_mem_nil nd)
  · obtain ⟨ha, hb, hc, hd⟩ := hint r hr
    rw [huv]
    exact ⟨hs, ha, hb, hc, hd⟩

theorem seg_entry_far_top (nd : Node) (idx : ℕ) (hsrc : nd.source = ("boss"))
    (hv : 1 / 50 < nd.uv.2) :
    seg_node_entry (0, 0) (1, 0) (2 / 100) nd idx = none := by
  simp only [seg_node_entry]
  rw [if_neg (by simp [hsrc])]
  split
  · rfl
  · split
    · rename_i hc
      exfalso
      norm_num at hc
      nlinarith [hv, sq_nonneg (nd.uv.2 - 1 / 50), sq_nonneg (nd.uv.1 - nd.uv.1)]
    · rfl

theorem boundary_side_top (roi : RoiParams) (bn : List Node)
    (hbn : ∀ nd ∈ bn, nd.source = ("boss") ∧ 1 / 50 < nd.uv.1 ∧
      nd.uv.1 < 49 / 50 ∧ 1 / 50 < nd.uv.2 ∧ nd.uv.2 < 49 / 50) :
    build_segment_edges_single (bn ++ corner_nodes roi) (0, 0) (1, 0)
      (2 / 100) = [(bn.length, bn.length + 1)] := by
  have g0 : (bn ++ corner_nodes roi).getD bn.length default =
      ⟨("roi_corner_00"), (0, 0), node_xy roi (0, 0), ("anchor"), none⟩ := by
    rw [List.getD_append_right _ _ _ _ (Nat.le_refl _)]
    simp [corner_nodes]
  have g1 : (bn ++ corner_nodes roi).getD (bn.length + 1) default =
      ⟨("roi_corner_10"), (1, 0), node_xy roi (1, 0), ("anchor"), none⟩ := by
    rw [List.getD_append_right _ _ _ _ (by omega)]
    simp [corner_nodes]
  have g2 : (bn ++ corner_nodes roi).getD (bn.length + 2) default =
      ⟨("roi_corner_11"), (1, 1), node_xy roi (1, 1), ("anchor"), none⟩ := by
    rw [List.getD_append_right _ _ _ _ (by omega)]
    simp [corner_nodes]
  have g3 : (bn ++ corner_nodes roi).getD (bn.length + 3) default =
      ⟨("roi_corner_01"), (0, 1), node_xy roi (0, 1), ("anchor"), none⟩ := by
    rw [List.getD_append_right _ _ _ _ (by omega)]
    simp [corner_nodes]
  have e00 : ∀ i : ℕ, seg_node_entry (0, 0) (1, 0) (2 / 100)
      (⟨("roi_corner_00"), (0, 0), node_xy roi (0, 0), ("anchor"), none⟩ : Node) i =
      some (0, i) := by
    intro i
    norm_num [seg_node_entry]
  have e10 : ∀ i : ℕ, seg_node_entry (0, 0) (1, 0) (2 / 100)
      (⟨("roi_corner_10"), (1, 0), node_xy roi (1, 0), ("anchor"), none⟩ : Node) i =
      some (1, i) := by
    intro i
    norm_num [seg_node_entry]
  have e11 : ∀ i : ℕ, seg_node_entry (0, 0) (1, 0) (2 / 100)
      (⟨("roi_corner_11"), (1, 1), node_xy roi (1, 1), ("anchor"), none⟩ : Node) i =
      none := by
    intro i
    norm_num [seg_node_entry]
  have e01 : ∀ i : ℕ, seg_node_entry (0, 0) (1, 0) (2 / 100)
      (⟨("roi_corner_01"), (0, 1), node_xy roi (0, 1), ("anchor"), none⟩ : Node) i =
      none := by
    intro i
    norm_num [seg_node_entry]
  simp only [build_segment_edges_single]
  rw [if_neg (by norm_num)]
  have hlen : (bn ++ corner_nodes roi).length = bn.length + 4 := by
    simp [corner_nodes]
  rw [hlen, List.range_add, List.filterMap_append]
  have hboss : (List.range bn.length).filterMap (fun idx =>
      seg_node_entry (0, 0) (1, 0) (2 / 100)
        ((bn ++ corner_nodes roi).getD idx default) idx) = [] := by
    rw [List.filterMap_eq_nil_iff]
    intro idx hidx
    rw [List.mem_range] at hidx
    rw [List.getD_append _ _ _ _ hidx]
    have hmem : bn.getD idx default ∈ bn := by
      rw [List.getD_eq_getElem bn default hidx]
      exact List.getElem_mem hidx
    obtain ⟨hs, h1, h2, h3, h4⟩ := hbn _ hmem
    exact seg_entry_far_top _ idx hs h3
  rw [hboss]
  have hr4 : (List.range 4).map (fun x => bn.length + x) =
      [bn.length, bn.length + 1, bn.length + 2, bn.length + 3] := by
    simp [List.range_succ]
  rw [hr4]
  have hfm : List.filterMap (fun idx =>
      seg_node_entry (0, 0) (1, 0) (2 / 100)
        ((bn ++ corner_nodes roi).getD idx default) idx)
      [bn.length, bn.length + 1, bn.length + 2, bn.length + 3] =
      [((0 : ℚ), bn.length), ((1 : ℚ), bn.length + 1)] := by
    simp only [List.filterMap_cons, List.filterMap_nil, g0, g1, g2, g3,
      e00, e10, e11, e01]
  rw [List.nil_append, hfm]
  rw [if_neg (by norm_num)]
  have hsorted : ([((0 : ℚ), bn.length), ((1 : ℚ), bn.length + 1)] :
      List (ℚ × ℕ)).insertionSort (fun a b => a.1 ≤ b.1) =
      [((0 : ℚ), bn.length), ((1 : ℚ), bn.length + 1)] := by
    norm_num [List.insertionSort, List.orderedInsert]
  rw [hsorted]
  simp only [List.map_cons, List.map_nil, List.tail_cons, List.zip_cons_cons,
    List.zip_nil_right, List.filterMap_cons, List.filterMap_nil]
  rw [if_pos (by omega : bn.length ≠ bn.length + 1)]
  simp only [sortPair]
  rw [if_pos (by omega : bn.length ≤ bn.length + 1)]

theorem seg_entry_far_right (nd : Node) (idx : ℕ) (hsrc : nd.source = ("boss"))
    (hu : nd.uv.1 < 49 / 50) :
    seg_node_entry (1, 0) (1, 1) (2 / 100) nd idx = none := by
  simp only [seg_node_entry]
  rw [if_neg (by simp [hsrc])]
  split
  · rfl
  · split
    · rename_i hc
      exfalso
      norm_num at hc
      nlinarith [hu, sq_nonneg (1 - nd.uv.1 - 1 / 50), sq_nonneg (nd.uv.2 - nd.uv.2)]
    · rfl

theorem seg_entry_far_bottom (nd : Node) (idx : ℕ) (hsrc : nd.source = ("boss"))
    (hv : nd.uv.2 < 49 / 50) :
    seg_node_entry (1, 1) (0, 1) (2 / 100) nd idx = none := by
  simp only [seg_node_entry]
  rw [if_neg (by simp [hsrc])]
  split
  · rfl
  · split
    · rename_i hc
      exfalso
      norm_num at hc
      nlinarith [hv, sq_nonneg (1 - nd.uv.2 - 1 / 50)]
    · rfl

theorem seg_entry_far_left (nd : Node) (idx : ℕ) (hsrc : nd.source = ("boss"))
    (hu : 1 / 50 < nd.uv.1) :
    seg_node_entry (0, 1) (0, 0) (2 / 100) nd idx = none := by
  simp only [seg_node_entry]
  rw [if_neg (by simp [hsrc])]
  split
  · rfl
  · split
    · rename_i hc
      exfalso
      norm_num at hc
      nlinarith [hu, sq_nonneg (nd.uv.1 - 1 / 50)]
    · rfl

theorem boundary_side_right (roi : RoiParams) (bn : List Node)
    (hbn : ∀ nd ∈ bn, nd.source = ("boss") ∧ 1 / 50 < nd.uv.1 ∧
      nd.uv.1 < 49 / 50 ∧ 1 / 50 < nd.uv.2 ∧ nd.uv.2 < 49 / 50) :
    build_segment_edges_single (bn ++ corner_nodes roi) (1, 0) (1, 1)
      (2 / 100) = [(bn.length + 1, bn.length + 2)] := by
  have g0 : (bn ++ corner_nodes roi).getD bn.length default =
      ⟨("roi_corner_00"), (0, 0), node_xy roi (0, 0), ("anchor"), none⟩ := by
    rw [List.getD_append_right _ _ _ _ (Nat.le_refl _)]
    simp [corner_nodes]
  have g1 : (bn ++ corner_nodes roi).getD (bn.length + 1) default =
      ⟨("roi_corner_10"), (1, 0), node_xy roi (1, 0), ("anchor"), none⟩ := by
    rw [List.getD_append_right _ _ _ _ (by omega)]
    simp [corner_nodes]
  have g2 : (bn ++ corner_nodes roi).getD (bn.length + 2) default =
      ⟨("roi_corner_11"), (1, 1), node_xy roi (1, 1), ("anchor"), none⟩ := by
    rw [List.getD_append_right _ _ _ _ (by omega)]
    simp [corner_nodes]
  have g3 : (bn ++ corner_nodes roi).getD (bn.length + 3) default =
      ⟨("roi_corner_01"), (0, 1), node_xy roi (0, 1), ("anchor"), none⟩ := by
    rw [List.getD_append_right _ _ _ _ (by omega)]
    simp [corner_nodes]
  have e00 : ∀ i : ℕ, seg_node_entry (1, 0) (1, 1) (2 / 100)
      (⟨("roi_corner_00"), (0, 0), node_xy roi (0, 0), ("anchor"), none⟩ : Node) i =
      none := by
    intro i
    norm_num [seg_node_entry]
  have e10 : ∀ i : ℕ, seg_node_entry (1, 0) (1, 1) (2 / 100)
      (⟨("roi_corner_10"), (1, 0), node_xy roi (1, 0), ("anchor"), none⟩ : Node) i =
      some (0, i) := by
    intro i
    norm_num [seg_node_entry]
  have e11 : ∀ i : ℕ, seg_node_entry (1, 0) (1, 1) (2 / 100)
      (⟨("roi_corner_11"), (1, 1), node_xy roi (1, 1), ("anchor"), none⟩ : Node) i =
      some (1, i) := by
    intro i
    norm_num [seg_node_entry]
  have e01 : ∀ i : ℕ, seg_node_entry (1, 0) (1, 1) (2 / 100)
      (⟨("roi_corner_01"), (0, 1), node_xy roi (0, 1), ("anchor"), none⟩ : Node) i =
      none := by
    intro i
    norm_num [seg_node_entry]
  simp only [build_segment_edges_single]
  rw [if_neg (by norm_num)]
  have hlen : (bn ++ corner_nodes roi).length = bn.length + 4 := by
    simp [corner_nodes]
  rw [hlen, List.range_add, List.filterMap_append]
  have hboss : (List.range bn.length).filterMap (fun idx =>
      seg_node_entry (1, 0) (1, 1) (2 / 100)
        ((bn ++ corner_nodes roi).getD idx default) idx) = [] := by
    rw [List.filterMap_eq_nil_iff]
    intro idx hidx
    rw [List.mem_range] at hidx
    rw [List.getD_append _ _ _ _ hidx]
    have hmem : bn.getD idx default ∈ bn := by
      rw [List.getD_eq_getElem bn default hidx]
      exact List.getElem_mem hidx
    obtain ⟨hs, h1, h2, h3, h4⟩ := hbn _ hmem
    exact seg_entry_far_right _ idx hs h2
  rw [hboss]
  have hr4 : (List.range 4).map (fun x => bn.length + x) =
      [bn.length, bn.length + 1, bn.length + 2, bn.length + 3] := by
    simp [List.range_succ]
  rw [hr4]
  have hfm : List.filterMap (fun idx =>
      seg_node_entry (1, 0) (1, 1) (2 / 100)
        ((bn ++ corner_nodes roi).getD idx default) idx)
      [bn.length, bn.length + 1, bn.length + 2, bn.length + 3] =
      [((0 : ℚ), bn.length + 1), ((1 : ℚ), bn.length + 2)] := by
    simp only [List.filterMap_cons, List.filterMap_nil, g0, g1, g2, g3,
      e00, e10, e11, e01]
  rw [List.nil_append, hfm]
  rw [if_neg (by norm_num)]
  have hsorted : ([((0 : ℚ), bn.length + 1), ((1 : ℚ), bn.length + 2)] :
      List (ℚ × ℕ)).insertionSort (fun a b => a.1 ≤ b.1) =
      [((0 : ℚ), bn.length + 1), ((1 : ℚ), bn.length + 2)] := by
    norm_num [List.insertionSort, List.orderedInsert]
  rw [hsorted]
  simp only [List.map_cons, List.map_nil, List.tail_cons, List.zip_cons_cons,
    List.zip_nil_right, List.filterMap_cons, List.filterMap_nil]
  rw [if_pos (by omega : bn.length + 1 ≠ bn.length + 2)]
  simp only [sortPair]
  rw [if_pos (by omega : bn.length + 1 ≤ bn.length + 2)]

theorem boundary_side_bottom (roi : RoiParams) (bn : List Node)
    (hbn : ∀ nd ∈ bn, nd.source = ("boss") ∧ 1 / 50 < nd.uv.1 ∧
      nd.uv.1 < 49 / 50 ∧ 1 / 50 < nd.uv.2 ∧ nd.uv.2 < 49 / 50) :
    build_segment_edges_single (bn ++ corner_nodes roi) (1, 1) (0, 1)
      (2 / 100) = [(bn.length + 2, bn.length + 3)] := by
  have g0 : (bn ++ corner_nodes roi).getD bn.length default =
      ⟨("roi_corner_00"), (0, 0), node_xy roi (0, 0), ("anchor"), none⟩ := by
    rw [List.getD_append_right _ _ _ _ (Nat.le_refl _)]
    simp [corner_nodes]
  have g1 : (bn ++ corner_nodes roi).getD (bn.length + 1) default =
      ⟨("roi_corner_10"), (1, 0), node_xy roi (1, 0), ("anchor"), none⟩ := by
    rw [List.getD_append_right _ _ _ _ (by omega)]
    simp [corner_nodes]
  have g2 : (bn ++ corner_nodes roi).getD (bn.length + 2) default =
      ⟨("roi_corner_11"), (1, 1), node_xy roi (1, 1), ("anchor"), none⟩ := by
    rw [List.getD_append_right _ _ _ _ (by omega)]
    simp [corner_nodes]
  have g3 : (bn ++ corner_nodes roi).getD (bn.length + 3) default =
      ⟨("roi_corner_01"), (0, 1), node_xy roi (0, 1), ("anchor"), none⟩ := by
    rw [List.getD_append_right _ _ _ _ (by omega)]
    simp [corner_nodes]
  have e00 : ∀ i : ℕ, seg_node_entry (1, 1) (0, 1) (2 / 100)
      (⟨("roi_corner_00"), (0, 0), node_xy roi (0, 0), ("anchor"), none⟩ : Node) i =
      none := by
    intro i
    norm_num [seg_node_entry]
  have e10 : ∀ i : ℕ, seg_node_entry (1, 1) (0, 1) (2 / 100)
      (⟨("roi_corner_10"), (1, 0), node_xy roi (1, 0), ("anchor"), none⟩ : Node) i =
      none := by
    intro i
    norm_num [seg_node_entry]
  have e11 : ∀ i : ℕ, seg_node_entry (1, 1) (0, 1) (2 / 100)
      (⟨("roi_corner_11"), (1, 1), node_xy roi (1, 1), ("anchor"), none⟩ : Node) i =
      some (0, i) := by
    intro i
    norm_num [seg_node_entry]
  have e01 : ∀ i : ℕ, seg_node_entry (1, 1) (0, 1) (2 / 100)
      (⟨("roi_corner_01"), (0, 1), node_xy roi (0, 1), ("anchor"), none⟩ : Node) i =
      some (1, i) := by
    intro i
    norm_num [seg_node_entry]
  simp only [build_segment_edges_single]
  rw [if_neg (by norm_num)]
  have hlen : (bn ++ corner_nodes roi).length = bn.length + 4 := by
    simp [corner_nodes]
  rw [hlen, List.range_add, List.filterMap_append]
  have hboss : (List.range bn.length).filterMap (fun idx =>
      seg_node_entry (1, 1) (0, 1) (2 / 100)
        ((bn ++ corner_nodes roi).getD idx default) idx) = [] := by
    rw [List.filterMap_eq_nil_iff]
    intro idx hidx
    rw [List.mem_range] at hidx
    rw [List.getD_append _ _ _ _ hidx]
    have hmem : bn.getD idx default ∈ bn := by
      rw [List.getD_eq_getElem bn default hidx]
      exact List.getElem_mem hidx
    obtain ⟨hs, h1, h2, h3, h4⟩ := hbn _ hmem
    exact seg_entry_far_bottom _ idx hs h4
  rw [hboss]
  have hr4 : (List.range 4).map (fun x => bn.length + x) =
      [bn.length, bn.length + 1, bn.length + 2, bn.length + 3] := by
    simp [List.range_succ]
  rw [hr4]
  have hfm : List.filterMap (fun idx =>
      seg_node_entry (1, 1) (0, 1) (2 / 100)
        ((bn ++ corner_nodes roi).getD idx default) idx)
      [bn.length, bn.length + 1, bn.length + 2, bn.length + 3] =
      [((0 : ℚ), bn.length + 2), ((1 : ℚ), bn.length + 3)] := by
    simp only [List.filterMap_cons, List.filterMap_nil, g0, g1, g2, g3,
      e00, e10, e11, e01]
  rw [List.nil_append, hfm]
  rw [if_neg (by norm_num)]
  have hsorted : ([((0 : ℚ), bn.length + 2), ((1 : ℚ), bn.length + 3)] :
      List (ℚ × ℕ)).insertionSort (fun a b => a.1 ≤ b.1) =
      [((0 : ℚ), bn.length + 2), ((1 : ℚ), bn.length + 3)] := by
    norm_num [List.insertionSort, List.orderedInsert]
  rw [hsorted]
  simp only [List.map_cons, List.map_nil, List.tail_cons, List.zip_cons_cons,
    List.zip_nil_right, List.filterMap_cons, List.filterMap_nil]
  rw [if_pos (by omega : bn.length + 2 ≠ bn.length + 3)]
  simp only [sortPair]
  rw [if_pos (by omega : bn.length + 2 ≤ bn.length + 3)]

theorem boundary_side_left (roi : RoiParams) (bn : List Node)
    (hbn : ∀ nd ∈ bn, nd.source = ("boss") ∧ 1 / 50 < nd.uv.1 ∧
      nd.uv.1 < 49 / 50 ∧ 1 / 50 < nd.uv.2 ∧ nd.uv.2 < 49 / 50) :
    build_segment_edges_single (bn ++ corner_nodes roi) (0, 1) (0, 0)
      (2 / 100) = [(bn.length, bn.length + 3)] := by
  have g0 : (bn ++ corner_nodes roi).getD bn.length default =
      ⟨("roi_corner_00"), (0, 0), node_xy roi (0, 0), ("anchor"), none⟩ := by
    rw [List.getD_append_right _ _ _ _ (Nat.le_refl _)]
    simp [corner_nodes]
  have g1 : (bn ++ corner_nodes roi).getD (bn.length + 1) default =
      ⟨("roi_corner_10"), (1, 0), node_xy roi (1, 0), ("anchor"), none⟩ := by
    rw [List.getD_append_right _ _ _ _ (by omega)]
    simp [corner_nodes]
  have g2 : (bn ++ corner_nodes roi).getD (bn.length + 2) default =
      ⟨("roi_corner_11"), (1, 1), node_xy roi (1, 1), ("anchor"), none⟩ := by
    rw [List.getD_append_right _ _ _ _ (by omega)]
    simp [corner_nodes]
  have g3 : (bn ++ corner_nodes roi).getD (bn.length + 3) default =
      ⟨("roi_corner_01"), (0, 1), node_xy roi (0, 1), ("anchor"), none⟩ := by
    rw [List.getD_append_right _ _ _ _ (by omega)]
    simp [corner_nodes]
  have e00 : ∀ i : ℕ, seg_node_entry (0, 1) (0, 0) (2 / 100)
      (⟨("roi_corner_00"), (0, 0), node_xy roi (0, 0), ("anchor"), none⟩ : Node) i =
      some (1, i) := by
    intro i
    norm_num [seg_node_entry]
  have e10 : ∀ i : ℕ, seg_node_entry (0, 1) (0, 0) (2 / 100)
      (⟨("roi_corner_10"), (1, 0), node_xy roi (1, 0), ("anchor"), none⟩ : Node) i =
      none := by
    intro i
    norm_num [seg_node_entry]
  have e11 : ∀ i : ℕ, seg_node_entry (0, 1) (0, 0) (2 / 100)
      (⟨("roi_corner_11"), (1, 1), node_xy roi (1, 1), ("anchor"), none⟩ : Node) i =
      none := by
    intro i
    norm_num [seg_node_entry]
  have e01 : ∀ i : ℕ, seg_node_entry (0, 1) (0, 0) (2 / 100)
      (⟨("roi_corner_01"), (0, 1), node_xy roi (0, 1), ("anchor"), none⟩ : Node) i =
      some (0, i) := by
    intro i
    norm_num [seg_node_entry]
  simp only [build_segment_edges_single]
  rw [if_neg (by norm_num)]
  have hlen : (bn ++ corner_nodes roi).length = bn.length + 4 := by
    simp [corner_nodes]
  rw [hlen, List.range_add, List.filterMap_append]
  have hboss : (List.range bn.length).filterMap (fun idx =>
      seg_node_entry (0, 1) (0, 0) (2 / 100)
        ((bn ++ corner_nodes roi).getD idx default) idx) = [] := by
    rw [List.filterMap_eq_nil_iff]
    intro idx hidx
    rw [List.mem_range] at hidx
    rw [List.getD_append _ _ _ _ hidx]
    have hmem : bn.getD idx default ∈ bn := by
      rw [List.getD_eq_getElem bn default hidx]
      exact List.getElem_mem hidx
    obtain ⟨hs, h1, h2, h3, h4⟩ := hbn _ hmem
    exact seg_entry_far_left _ idx hs h1
  rw [hboss]
  have hr4 : (List.range 4).map (fun x => bn.length + x) =
      [bn.length, bn.length + 1, bn.length + 2, bn.length + 3] := by
    simp [List.range_succ]
  rw [hr4]
  have hfm : List.filterMap (fun idx =>
      seg_node_entry (0, 1) (0, 0) (2 / 100)
        ((bn ++ corner_nodes roi).getD idx default) idx)
      [bn.length, bn.length + 1, bn.length + 2, bn.length + 3] =
      [((1 : ℚ), bn.length), ((0 : ℚ), bn.length + 3)] := by
    simp only [List.filterMap_cons, List.filterMap_nil, g0, g1, g2, g3,
      e00, e10, e11, e01]
  rw [List.nil_append, hfm]
  rw [if_neg (by norm_num)]
  have hsorted : ([((1 : ℚ), bn.length), ((0 : ℚ), bn.length + 3)] :
      List (ℚ × ℕ)).insertionSort (fun a b => a.1 ≤ b.1) =
      [((0 : ℚ), bn.length + 3), ((1 : ℚ), bn.length)] := by
    norm_num [List.insertionSort, List.orderedInsert]
  rw [hsorted]
  simp only [List.map_cons, List.map_nil, List.tail_cons, List.zip_cons_cons,
    List.zip_nil_right, List.filterMap_cons, List.filterMap_nil]
  rw [if_pos (by omega : bn.length + 3 ≠ bn.length)]
  simp only [sortPair]
  rw [if_neg (by omega : ¬ bn.length + 3 ≤ bn.length)]

theorem boundary_edges_interior_length (roi : RoiParams) (bn : List Node)
    (hbn : ∀ nd ∈ bn, nd.source = ("boss") ∧ 1 / 50 < nd.uv.1 ∧
      nd.uv.1 < 49 / 50 ∧ 1 / 50 < nd.uv.2 ∧ nd.uv.2 < 49 / 50) :
    (build_segment_edges (bn ++ corner_nodes roi) boundary_segments
      (2 / 100)).length = 4 := by
  unfold build_segment_edges
  simp only [boundary_segments, List.foldl_cons, List.foldl_nil]
  rw [boundary_side_top roi bn hbn, boundary_side_right roi bn hbn,
    boundary_side_bottom roi bn hbn, boundary_side_left roi bn hbn]
  simp only [List.nil_append, List.singleton_append, List.append_assoc,
    List.cons_append]
  rw [List.length_insertionSort]
  have hnodup : ((bn.length, bn.length + 1) :: (bn.length + 1, bn.length + 2)
      :: (bn.length + 2, bn.length + 3) :: [(bn.length, bn.length + 3)] :
      List (ℕ × ℕ)).Nodup := by
    simp [List.nodup_cons, Prod.ext_iff]
  rw [List.dedup_eq_self.mpr hnodup]
  rfl

/-- C3 (amended): for a project with at least one boss and no rib mask, the
reconstruction does not raise and reports `fallbackApplied = true`, no enabled
constraint families, and the boss count — and, when every boss lies strictly
inside the ROI (farther than the 0.02 cross tolerance from every boundary
side), the constraint edges are exactly the 4 boundary-chain edges. (A boss
on the boundary splits a boundary chain and raises the count above 4.) -/
theorem c3_no_mask_fallback
    (tri : List Node → List (ℕ × ℕ) → List Node × List (ℕ × ℕ))
    (roi : RoiParams) (boss_rows : List (String × (ℚ × ℚ)))
    (hne : boss_rows ≠ [])
    (hint : ∀ r ∈ boss_rows, 1 / 50 < r.2.1 ∧ r.2.1 < 49 / 50 ∧
      1 / 50 < r.2.2 ∧ r.2.2 < 49 / 50) :
    ∃ res, run_reconstruction_no_mask tri roi boss_rows = .ok res ∧
      res.fallbackApplied = true ∧ res.enabledConstraintFamilies = [] ∧
      res.constraintEdgeCount = 4 ∧ res.bossCount = boss_rows.length := by
  obtain ⟨bn, hbn_eq, hbn⟩ := collect_nodes_interior roi boss_rows hint
  unfold run_reconstruction_no_mask
  rw [if_neg hne]
  dsimp only
  rw [hbn_eq]
  refine ⟨_, rfl, rfl, rfl, ?_, rfl⟩
  show (build_segment_edges (bn ++ corner_nodes roi) boundary_segments
    (2 / 100)).length = 4
  exact boundary_edges_interior_length roi bn hbn

/-- C3 counterexample: a single boss on the ROI boundary (uv `(0.5, 0)`)
splits the top boundary chain: the run succeeds with `fallbackApplied = true`
and no enabled families, but `constraintEdgeCount = 5`, not the 4 promised by
the claim. -/
theorem c3_no_mask_fallback_counterexample :
    run_reconstruction_no_mask (fun _ _ => ([], [])) ⟨0, 0, 1, 1, 0⟩
      [(("b1"), ((1 / 2 : ℚ), (0 : ℚ)))] = .ok ⟨5, 5, 5, 1, [], true⟩ := by
  with_unfolding_all decide

/-- Witness for C3: a single strictly interior boss yields the fallback
result with exactly 4 boundary constraint edges. -/
theorem c3_no_mask_fallback_witness :
    ∃ res, run_reconstruction_no_mask (fun _ _ => ([], [])) ⟨0, 0, 1, 1, 0⟩
      [(("b1"), ((1 / 2 : ℚ), (1 / 2 : ℚ)))] = .ok res ∧
      res.fallbackApplied = true ∧ res.enabledConstraintFamilies = [] ∧
      res.constraintEdgeCount = 4 ∧
      res.bossCount = ([(("b1"), ((1 / 2 : ℚ), (1 / 2 : ℚ)))] :
        List (String × (ℚ × ℚ))).length :=
  c3_no_mask_fallback (fun _ _ => ([], [])) ⟨0, 0, 1, 1, 0⟩
    [(("b1"), ((1 / 2 : ℚ), (1 / 2 : ℚ)))] (by simp)
    (by with_unfolding_all decide)
